import Mathlib

/-!
Shallow embedding of the merge-convex migration scripts and proofs of the
specified properties.

The repository holds three Node scripts that move records from a MongoDB
source into a Convex target:

* src/users.js   - migrateUsers: transforms each Mongo user document,
  skips users without resolved organizations, and upserts by email.
* src/tags.js    - updateTags: creates tags from Mongo tag documents and
  links created tags to target property records, with an existing-link
  check before each add-link mutation.
* src/properties.js - updateCoordinates: paginated extraction of all
  property records followed by per-record geocoding updates.

The embedding below translates the JavaScript record processing into pure
Lean functions.  Remote Convex queries and mutations (the target store) are
not part of the repository; they are modelled from the spec as an explicit
in-memory store threaded through the run, with a doc comment marking each
such definition.  JavaScript `undefined`/`null` values are modelled with
`Option`; a thrown exception in a per-record transform is modelled with
`Except`.  Counters and the issued create/update/link calls are recorded in
the run state so that theorems can speak about them.
-/

namespace MergeConvex

/-- Lowercasing as performed by the JavaScript `toLowerCase()` calls,
written over the character list so that it evaluates by `decide`. -/
def jsToLower (s : String) : String := ⟨s.data.map Char.toLower⟩

/-- Association-list lookup mirroring a JavaScript object-literal lookup:
`obj[key]` yields the stored value or `undefined` (here `none`). -/
def assocLookup : List (String × String) → String → Option String
  | [], _ => none
  | p :: ps, k => if p.1 = k then some p.2 else assocLookup ps k

/-! ## users.js : source documents and the transform -/

/-- One entry of the `team` array of a Mongo user document, with the two
fields read at users.js lines 102-107. -/
structure TeamEntry where
  teamId : String
  status : String
deriving DecidableEq, Repr

/-- A Mongo user document with the fields read by users.js.  `email` is an
`Option` because `oldUser.email.toLowerCase()` (users.js:93) throws when the
field is missing; the fields read through `||` or `?.` are `Option` as
well.  Timestamps are carried as opaque strings; the ISO normalization
`new Date(x).toISOString()` is modelled as the identity on them. -/
structure SourceUser where
  mongoId : String
  email : Option String
  profileImg : Option String
  isOnBoarded : Option Bool
  firstName : String
  lastName : String
  phone : Option String
  team : List TeamEntry
  teamActive : Option String
  lastActive : Option String
deriving DecidableEq, Repr

/-- An entry of the transformed `orgIds` list (users.js:103-107). -/
structure OrgMembership where
  id : String
  role : String
  status : String
deriving DecidableEq, Repr

/-- The `presence` object of the transformed user (users.js:110-113). -/
structure Presence where
  lastSeen : String
  status : String
deriving DecidableEq, Repr

/-- The transformed Convex user record built at users.js:91-115. -/
structure NewUser where
  mongoId : String
  email : String
  emailVerified : Bool
  image : Option String
  isOnboardingComplete : Bool
  name : String
  firstName : String
  lastName : String
  phone : String
  orgIds : List OrgMembership
  activeOrgId : Option String
  presence : Presence
  providers : List String
deriving DecidableEq, Repr

/-- The static organization table of users.js (lines 194-197). -/
def usersOrgIdMap : List (String × String) :=
  [("628bff8d44cd3e01b746b737", "nd73x7djt7ez0zmyp49n6t0x3h6ztghc"),
   ("628ea3ebfeec685660394d1c", "nd7dzk39r6hzmz012cvmgwgqvn70gdm0")]

/-- mapOrgId of users.js (lines 190-199): `none` for falsy input
(`undefined` or the empty string) and for ids outside the table, otherwise
the table value.  The argument is an `Option` because the call site
`mapOrgId(oldUser.teamActive?.toString())` can pass `undefined`. -/
def mapOrgIdUsers (oldId : Option String) : Option String :=
  match oldId with
  | none => none
  | some s => if s = "" then none else assocLookup usersOrgIdMap s

/-- The user transform of users.js:91-115.  It throws (models the
`TypeError` from `oldUser.email.toLowerCase()`) exactly when `email` is
missing; every other field access is defaulted in the source.  `now` is the
current clock reading, used for `presence.lastSeen` when `lastActive` is
missing (users.js:111). -/
def transformUser (now : String) (u : SourceUser) : Except String NewUser :=
  match u.email with
  | none => Except.error "TypeError"
  | some e =>
    Except.ok
      { mongoId := u.mongoId
        email := jsToLower e
        emailVerified := true
        image := u.profileImg
        isOnboardingComplete := u.isOnBoarded.getD false
        name := u.firstName ++ " " ++ u.lastName
        firstName := u.firstName
        lastName := u.lastName
        phone := u.phone.getD ""
        orgIds := u.team.filterMap (fun t =>
          (mapOrgIdUsers (some t.teamId)).map (fun i =>
            { id := i
              role := "org:member"
              status := if jsToLower t.status = "approved" then "active" else "pending" }))
        activeOrgId := mapOrgIdUsers u.teamActive
        presence := { lastSeen := u.lastActive.getD now, status := "offline" }
        providers := [""] }

/-- The default-active-organization fix-up of users.js:125-127: when
`activeOrgId` is falsy and `orgIds` is non-empty, the first resolved
membership becomes the active organization. -/
def withActive (nu : NewUser) : NewUser :=
  if nu.activeOrgId.getD "" = "" then
    match nu.orgIds with
    | o :: _ => { nu with activeOrgId := some o.id }
    | [] => nu
  else nu

/-! ## users.js : the target user store

The Convex backend functions `users:getUserByEmail`, `users:create` and
`users:update` are not part of this repository; they are modelled from the
spec (target store surface, section 6): get by natural key, create, and
update by identifier. -/

/-- Modelled from the spec: a stored target user record; `users:create` is
the only producer here, so the fields are exactly the transformed record,
keyed by a store-assigned identifier. -/
structure UserDoc where
  docId : Nat
  fields : NewUser
deriving DecidableEq, Repr

/-- Modelled from the spec: the target user collection, with a counter
supplying fresh identifiers for created records. -/
structure UserStore where
  docs : List UserDoc
  nextId : Nat
deriving DecidableEq, Repr

def emptyUserStore : UserStore := { docs := [], nextId := 0 }

/-- Modelled from the spec: `users:getUserByEmail` - get by natural key
(the first stored record with the given email). -/
def findByEmail (s : UserStore) (e : String) : Option UserDoc :=
  s.docs.find? (fun d => d.fields.email == e)

/-- Modelled from the spec: `users:create` - append a record under a fresh
identifier. -/
def createDoc (s : UserStore) (nu : NewUser) : UserStore :=
  { docs := s.docs ++ [{ docId := s.nextId, fields := nu }], nextId := s.nextId + 1 }

/-- Modelled from the spec: `users:update` - replace the fields of the
record with the given identifier. -/
def updateDoc (s : UserStore) (i : Nat) (nu : NewUser) : UserStore :=
  { s with docs := s.docs.map (fun d => if d.docId = i then { d with fields := nu } else d) }

/-! ## users.js : the migration loop -/

/-- A write issued against the target user store. -/
inductive UserEvent where
  | createCall (record : NewUser)
  | updateCall (id : Nat) (record : NewUser)
deriving DecidableEq, Repr

/-- The decision taken by the loop body of migrateUsers for one source
user: fatal transform failure, skip, update of an existing record, or
creation.  This mirrors users.js:87-133 literally: transform, then the
empty-orgIds skip, then the active-organization default, then the lookup by
email. -/
inductive UStep where
  | fatal
  | skip
  | upd (d : UserDoc) (nu : NewUser)
  | cre (nu : NewUser)
deriving DecidableEq, Repr

def classify (now : String) (s : UserStore) (u : SourceUser) : UStep :=
  match transformUser now u with
  | Except.error _ => UStep.fatal
  | Except.ok nu0 =>
    if nu0.orgIds.isEmpty then UStep.skip
    else
      let nu := withActive nu0
      match findByEmail s nu.email with
      | some d => UStep.upd d nu
      | none => UStep.cre nu

/-- The run state of migrateUsers: the target store together with the three
counters declared at users.js:82-84 (`migratedCount`, `errorCount`,
`skippedCount` - the summary at line 157 reports exactly these three) and
the trace of issued writes. -/
structure UsersRunState where
  store : UserStore
  migratedCount : Nat
  errorCount : Nat
  skippedCount : Nat
  events : List UserEvent
deriving DecidableEq, Repr

def initUsersState : UsersRunState :=
  { store := emptyUserStore, migratedCount := 0, errorCount := 0, skippedCount := 0, events := [] }

/-- One iteration of the migrateUsers loop (users.js:87-154).  The returned
Bool is true when the iteration threw outside the two inner try/catch
blocks, in which case control reaches the run-level catch (users.js:158)
and the loop is over.  In the update branch the mutation succeeds, after
which `updatedCount++` (users.js:138) increments a variable that is never
declared; in module code this throws a ReferenceError inside the inner try
block, so the catch at users.js:139-142 increments `errorCount`. -/
def stepUser (now : String) (st : UsersRunState) (u : SourceUser) : UsersRunState × Bool :=
  match classify now st.store u with
  | UStep.fatal => (st, true)
  | UStep.skip => ({ st with skippedCount := st.skippedCount + 1 }, false)
  | UStep.upd d nu =>
    ({ st with
        store := updateDoc st.store d.docId nu
        errorCount := st.errorCount + 1
        events := st.events ++ [UserEvent.updateCall d.docId nu] }, false)
  | UStep.cre nu =>
    ({ st with
        store := createDoc st.store nu
        migratedCount := st.migratedCount + 1
        events := st.events ++ [UserEvent.createCall nu] }, false)

/-- The migrateUsers cursor loop over the extracted source users, starting
from an arbitrary run state.  The Bool of the result records whether the
run was aborted by the run-level catch. -/
def runUsersFrom (now : String) : List SourceUser → UsersRunState → UsersRunState × Bool
  | [], st => (st, false)
  | u :: us, st =>
    match stepUser now st u with
    | (st2, true) => (st2, true)
    | (st2, false) => runUsersFrom now us st2

/-- migrateUsers (users.js:61-163) over a given source user list and
initial target store. -/
def runUsers (now : String) (users : List SourceUser) (s : UserStore) : UsersRunState × Bool :=
  runUsersFrom now users { initUsersState with store := s }

/-- The store effect of the migrateUsers loop in isolation (same decisions
as `runUsersFrom`, counters and events dropped). -/
def runStore (now : String) : List SourceUser → UserStore → UserStore
  | [], s => s
  | u :: us, s =>
    match classify now s u with
    | UStep.fatal => s
    | UStep.skip => runStore now us s
    | UStep.upd d nu => runStore now us (updateDoc s d.docId nu)
    | UStep.cre nu => runStore now us (createDoc s nu)

/-! ## tags.js : source documents and mapping tables -/

/-- A row of the Mongo `tagrefs` collection with the fields read by
tags.js: the owning tag, the reference kind, and the referenced record. -/
structure TagRef where
  tagObject : String
  type : String
  refWith : String
deriving DecidableEq, Repr

/-- A Mongo `tagdatas` document with the fields read by tags.js.  `userId`
is an `Option` because `tagData.userId.toString()` (tags.js:184) throws
when the field is missing; that throw is caught by the per-tag catch at
tags.js:238. -/
structure TagData where
  mongoId : String
  team : String
  tag : String
  userId : Option String
deriving DecidableEq, Repr

/-- The static organization table of tags.js (lines 255-258); same entries
as the users.js table. -/
def tagsOrgIdMap : List (String × String) :=
  [("628bff8d44cd3e01b746b737", "nd73x7djt7ez0zmyp49n6t0x3h6ztghc"),
   ("628ea3ebfeec685660394d1c", "nd7dzk39r6hzmz012cvmgwgqvn70gdm0")]

/-- mapOrgId of tags.js (lines 252-260).  Unlike the users.js variant, a
falsy input returns the fixed identifier at tags.js:253, which is not an
entry of the table; a non-falsy input resolves through the table or to
`none`. -/
def mapOrgIdTags (oldId : Option String) : Option String :=
  match oldId with
  | none => some "nd70p3ngxkh8n7chaddb81tjpx7166mr"
  | some s =>
    if s = "" then some "nd70p3ngxkh8n7chaddb81tjpx7166mr"
    else assocLookup tagsOrgIdMap s

/-- The static user table of tags.js (lines 265-285). -/
def userIdMap : List (String × String) :=
  [("628c069244cd3e01b746bb27", "jx7fccjdbh0tkk4d8sm5gkk55572ckx7"),
   ("628c068a44cd3e01b746bb1b", "jx72n00r91av5bhvac1y1vj0ss72d194"),
   ("632245717e8b30f96324399b", "jx7ehz07gwg8tgz2a085n3t75172cncs"),
   ("60e1f01a93969009be99b46d", "jx71hh2kfx7j6v7504envzx1yn72dpk0"),
   ("628c06f044cd3e01b746bb9e", "jx72pj9eav4g6wxec8wvc1txjd72d1p3"),
   ("628c06a644cd3e01b746bb63", "jx7c59n0knmjg8n8yn62pyvh2s72dhsc"),
   ("628c06b744cd3e01b746bb7a", "jx72yacpvkhc779st99xp6sfnx72d5x8"),
   ("6334d9efe649ad2f1edecbae", "jx79wfbcyaaqnvcejqmdqpya8x72cr0k"),
   ("66020ef2ad9f7a60cfd5de5e", "jx7ax8tdwcp3rd461a8rmn0tz172d1wh"),
   ("6322457f7e8b30f9632439a7", "jx7864z64kzcm2p1xfj3wkk83172csvw"),
   ("665fbbd06451bf23d3eab6c1", "jx7f7y699zrhyn46aa8dr6ym9572cf20"),
   ("632245667e8b30f963244398f", "jx743dfq80jftth0bfdb1e6gq172cnnw"),
   ("63225d8c7e8b30f963244450", "jx7d8ft0whj3zcjxqpqd05jdqs72d7mq"),
   ("66045830ad9f7a60cfd74077", "jx7amjhxaqxnc55fs7mh4x73gh72d4qz"),
   ("61382e137d8edd0023c1539d", "jx77anct8xft6ej3q3tetcbkp172cw5z"),
   ("636025626b13702974981ad4", "jx7a5hmy7w66fpkjd4ew8a90rx72ddzf"),
   ("65fb6089ad9f7a60cfd48b7f", "jx73e8tf5hp6wvxvew0wks9rth72cs4p"),
   ("628c06c344cd3e01b746bb86", "jx7drgj8n8kx18egwwwkje8v9x72dkdf"),
   ("6363f4a55acbe1bf42c33415", "jx73wsrz21fdttqfc6wxptyd1h72dygk")]

/-- mapUserId of tags.js (lines 262-288): `none` for falsy input, table
value when present, otherwise the fixed fallback user identifier. -/
def mapUserId (oldId : Option String) : Option String :=
  match oldId with
  | none => none
  | some s =>
    if s = "" then none
    else some ((assocLookup userIdMap s).getD "jx7af8p9kcxg2hy7b4zgzez5056ztvpv")

/-- The reference group of one tag: `tagRefMap[tagId] || []` (tags.js
builds `tagRefMap` at lines 137-144 by grouping the fetched refs on
`tagObject`, preserving order, which is the same as this filter). -/
def refsFor (refs : List TagRef) (tagId : String) : List TagRef :=
  refs.filter (fun r => r.tagObject == tagId)

/-- The reference-type filter sent to Mongo at tags.js:124-126:
`type: { $in: ['property'] }`. -/
def filterPropertyRefs (refs : List TagRef) : List TagRef :=
  refs.filter (fun r => r.type == "property")

/-- The scan at tags.js:170. -/
def hasContactRefs (refs : List TagRef) : Bool :=
  refs.any (fun r => r.type == "contact")

/-- The scan at tags.js:171. -/
def hasPropertyRefs (refs : List TagRef) : Bool :=
  refs.any (fun r => r.type == "property")

/-- The `recordType` classification computed at tags.js:174-176.  The `let
recordType` variable filled here is never read afterwards: the created tag
carries the literal string at tags.js:182.  `none` models the variable
staying `undefined` when neither branch fires. -/
def classifiedRecordType (refs : List TagRef) : Option String :=
  if hasContactRefs refs && !hasPropertyRefs refs then some "contacts"
  else if !hasContactRefs refs && hasPropertyRefs refs then some "properties"
  else none

/-- An entry of the `userIds` list of a created tag (tags.js:183-186). -/
structure TagUserEntry where
  userId : Option String
  role : String
deriving DecidableEq, Repr

/-- The record passed to `tags:createTagFromMongo` (tags.js:179-188). -/
structure NewTagData where
  orgId : Option String
  name : String
  recordType : String
  userIds : List TagUserEntry
  mongoId : String
deriving DecidableEq, Repr

/-! ## tags.js : the target store

The Convex backend functions `tags:getAll`, `tags:createTagFromMongo`,
`properties:getByMongoId`, `tags:getTagsForRecord` and
`tags:addTagToRecord` are not part of this repository; they are modelled
from the spec (target store surface, section 6). -/

/-- Modelled from the spec: a stored target tag record.  The records this
migration creates carry exactly the fields of `NewTagData` plus the
store-assigned identifier; in particular they have no `id` property, so the
JavaScript read `tag.id` (tags.js:153) yields `undefined` on them, which
`idField := none` models.  Pre-existing records may carry a value there. -/
structure TagDoc where
  docId : Nat
  idField : Option String
  orgId : Option String
  name : String
  recordType : String
  userIds : List TagUserEntry
  mongoId : String
deriving DecidableEq, Repr

/-- Modelled from the spec: a target property record, looked up by its
source identifier during association. -/
structure PropertyDoc where
  docId : Nat
  mongoId : String
deriving DecidableEq, Repr

/-- Modelled from the spec: the target state touched by updateTags - the
tag collection, the property collection (read-only here), the tag-to-record
links, and a counter supplying fresh tag identifiers. -/
structure TagStore where
  tags : List TagDoc
  properties : List PropertyDoc
  links : List (Nat × Nat)
  nextId : Nat
deriving DecidableEq, Repr

/-- Modelled from the spec: `tags:getAll`. -/
def getAllTags (s : TagStore) : List TagDoc := s.tags

/-- Modelled from the spec: `properties:getByMongoId` - get by the
source-originated identifier. -/
def propertyByMongoId (s : TagStore) (m : String) : Option PropertyDoc :=
  s.properties.find? (fun p => p.mongoId == m)

/-- Modelled from the spec: `tags:getTagsForRecord` - the identifiers of
the tags currently linked to the record. -/
def tagsForRecord (s : TagStore) (rid : Nat) : List Nat :=
  (s.links.filter (fun l => l.1 == rid)).map (fun l => l.2)

/-- Modelled from the spec: `tags:addTagToRecord` - append one link. -/
def addTagToRecord (s : TagStore) (rid tid : Nat) : TagStore :=
  { s with links := s.links ++ [(rid, tid)] }

/-- The number of links between one record and one tag held by the store -
the link count that the no-duplicate-links property speaks about. -/
def linkCount (s : TagStore) (rid tid : Nat) : Nat :=
  (s.links.filter (fun q => q == (rid, tid))).length

/-- Modelled from the spec: `tags:createTagFromMongo` - append a tag record
under a fresh identifier and return that identifier (the `result.data` of
tags.js:193-195). -/
def createTagFromMongo (s : TagStore) (ntd : NewTagData) : TagStore × Nat :=
  ({ s with
      tags := s.tags ++
        [{ docId := s.nextId, idField := none, orgId := ntd.orgId, name := ntd.name,
           recordType := ntd.recordType, userIds := ntd.userIds, mongoId := ntd.mongoId }]
      nextId := s.nextId + 1 }, s.nextId)

/-! ## tags.js : the migration loop -/

/-- The observable steps of updateTags: tag creation, the
existing-link query issued for one candidate link, an issued add-link
mutation, a duplicate-tag skip, a reference whose target record failed to
resolve, and a per-tag record error. -/
inductive TagEvent where
  | createTag (mongoId : String) (tagId : Nat)
  | linkCheck (recordId : Nat) (tagId : Nat)
  | addLink (recordId : Nat) (tagId : Nat)
  | skipDup (mongoId : String)
  | linkError (tagId : Nat) (refWith : String)
  | recordError (mongoId : String)
deriving DecidableEq, Repr

/-- The run state of updateTags: the target store, the `createdTags` map of
tags.js:147 in insertion order, and the trace of observable steps. -/
structure TagsRunState where
  store : TagStore
  createdTags : List (String × Nat)
  events : List TagEvent
deriving DecidableEq, Repr

/-- Processing of one reference inside the association loop
(tags.js:205-235): resolve the record by its source identifier (a `null`
lookup makes `record._id` throw, caught at tags.js:232 as a link error),
fetch the current tag links of the record, and add the link only when the
candidate tag is absent from them. -/
def processRef (st : TagsRunState) (convexTagId : Nat) (ref : TagRef) : TagsRunState :=
  match propertyByMongoId st.store ref.refWith with
  | none => { st with events := st.events ++ [TagEvent.linkError convexTagId ref.refWith] }
  | some record =>
    let existing := tagsForRecord st.store record.docId
    let st1 := { st with events := st.events ++ [TagEvent.linkCheck record.docId convexTagId] }
    if convexTagId ∈ existing then st1
    else
      { st1 with
          store := addTagToRecord st1.store record.docId convexTagId
          events := st1.events ++ [TagEvent.addLink record.docId convexTagId] }

/-- The association loop of tags.js:202-236: iterate the `createdTags`
accumulated so far and, for each, that tag's reference group. -/
def sweepRefs (filteredRefs : List TagRef) (st : TagsRunState) : TagsRunState :=
  st.createdTags.foldl
    (fun acc p => (refsFor filteredRefs p.1).foldl (fun a r => processRef a p.2 r) acc)
    st

/-- One iteration of the updateTags loop body (tags.js:157-241), in source
order: the duplicate check against the sets fetched before the loop, then
the reference scan and the construction of the new tag record (where
`tagData.userId.toString()` throws to the per-tag catch when `userId` is
missing), the creation mutation, and then - nested inside this same loop
iteration - the association loop over every tag created so far. -/
def processTagData (filteredRefs : List TagRef) (existIds : List (Option String))
    (existNames : List String) (st : TagsRunState) (td : TagData) : TagsRunState :=
  if (some td.mongoId ∈ existIds) ∨ (td.tag ∈ existNames) then
    { st with events := st.events ++ [TagEvent.skipDup td.mongoId] }
  else
    match td.userId with
    | none => { st with events := st.events ++ [TagEvent.recordError td.mongoId] }
    | some uid =>
      let refs := refsFor filteredRefs td.mongoId
      let _recordTypeUnused := classifiedRecordType refs
      let ntd : NewTagData :=
        { orgId := mapOrgIdTags (some td.team)
          name := td.tag
          recordType := "properties"
          userIds := [{ userId := mapUserId (some uid), role := "tag:admin" }]
          mongoId := td.mongoId }
      let pr := createTagFromMongo st.store ntd
      let st1 :=
        { st with
            store := pr.1
            createdTags := st.createdTags ++ [(td.mongoId, pr.2)]
            events := st.events ++ [TagEvent.createTag td.mongoId pr.2] }
      sweepRefs filteredRefs st1

/-- updateTags (tags.js:92-250) over the fetched `tagdatas` and `tagrefs`
rows and an initial target store: the reference filter, the two existing
sets fetched once before the loop (tags.js:150-154), and the loop. -/
def runTags (tds : List TagData) (tagRefs : List TagRef) (store : TagStore) : TagsRunState :=
  let filteredRefs := filterPropertyRefs tagRefs
  let existIds := (getAllTags store).map (fun t => t.idField)
  let existNames := (getAllTags store).map (fun t => t.name)
  tds.foldl (processTagData filteredRefs existIds existNames)
    { store := store, createdTags := [], events := [] }

def emptyTagStore (props : List PropertyDoc) : TagStore :=
  { tags := [], properties := props, links := [], nextId := 0 }

/-! ## properties.js : the paginated extraction loop -/

/-- Modelled from the spec: one page response of the paginated source query
`properties:getProperties` - a page of records, the continuation cursor,
and the done flag (spec section 6). -/
structure PageResult (α : Type) where
  page : List α
  continueCursor : Nat
  isDone : Bool
deriving DecidableEq, Repr

/-- Modelled from the spec: the paginated list query over a finite stored
collection.  The opaque continuation cursor is modelled as the number of
records already served (the initial `null` cursor is position 0); a page is
the next `numItems` records, and `isDone` signals that the collection is
exhausted. -/
def getPropertiesPage {α : Type} (props : List α) (cursor numItems : Nat) : PageResult α :=
  let page := (props.drop cursor).take numItems
  { page := page
    continueCursor := cursor + page.length
    isDone := decide (props.length ≤ cursor + page.length) }

/-- The extraction loop of updateCoordinates (properties.js:120-136),
accumulating `allProperties`: request a page at the cursor, stop on an
empty page, append the page, advance the cursor, stop when the source
signals done. -/
def fetchFrom {α : Type} (props : List α) (numItems : Nat) (cursor : Nat)
    (acc : List α) : List α :=
  let res := getPropertiesPage props cursor numItems
  if h : res.page.length = 0 then acc
  else if res.isDone then acc ++ res.page
  else fetchFrom props numItems res.continueCursor (acc ++ res.page)
termination_by props.length - cursor
decreasing_by
  have hpage : res.page = (props.drop cursor).take numItems := rfl
  have hcc : res.continueCursor = cursor + res.page.length := rfl
  have hlt : cursor < props.length := by
    by_contra hge
    apply h
    rw [hpage, List.drop_eq_nil_of_le (Nat.le_of_not_lt hge)]
    simp
  have hps : 0 < res.page.length := Nat.pos_of_ne_zero h
  rw [hcc]
  omega

/-- The full extraction `allProperties` of properties.js with the fixed
page size 1000 abstracted into a parameter. -/
def fetchAllProperties {α : Type} (props : List α) (numItems : Nat) : List α :=
  fetchFrom props numItems 0 []

/-! ## Derived predicates on source users, used by the idempotence proofs -/

/-- The resolved membership list of a source user - the orgIds the
transform computes, which do not depend on the clock or on the store. -/
def uResolvedOrgs (u : SourceUser) : List OrgMembership :=
  u.team.filterMap (fun t =>
    (mapOrgIdUsers (some t.teamId)).map (fun i =>
      { id := i
        role := "org:member"
        status := if jsToLower t.status = "approved" then "active" else "pending" }))

/-- The lowercased email of a source user, when present. -/
def uEmailKey (u : SourceUser) : Option String := u.email.map jsToLower

/-- The transformed-and-fixed-up record the loop body works with, when the
transform succeeds. -/
def nuOf (now : String) (u : SourceUser) : Option NewUser :=
  (transformUser now u).toOption.map withActive

/-- Whether the users of the list, processed in order up to the first
fatal transform, contain a non-skipped user with the given target
email. -/
def writesEmail : List SourceUser → String → Prop
  | [], _ => False
  | u :: us, e =>
    u.email ≠ none ∧ ((uResolvedOrgs u ≠ [] ∧ uEmailKey u = some e) ∨ writesEmail us e)

/-- Well-formedness of the target user store: identifiers are distinct,
emails are distinct, and the fresh-identifier counter is above every used
identifier.  The empty store is well-formed and every run step preserves
well-formedness. -/
def WFStore (s : UserStore) : Prop :=
  (s.docs.map (fun d => d.docId)).Nodup ∧
  (s.docs.map (fun d => d.fields.email)).Nodup ∧
  (∀ d ∈ s.docs, d.docId < s.nextId)

/-- Pointwise relation between two doc lists that agree everywhere except
possibly in the stored fields of the single record with the given
identifier, whose email is the given one on both sides. -/
def DocsRel (i : Nat) (e : String) : List UserDoc → List UserDoc → Prop :=
  List.Forall₂ (fun d1 d2 => d1 = d2 ∨
    (d1.docId = i ∧ d2.docId = i ∧ d1.fields.email = e ∧ d2.fields.email = e))

/-- Two stores that agree except possibly in the fields of the record with
the given identifier and email. -/
def EquivExceptDoc (i : Nat) (e : String) (S T : UserStore) : Prop :=
  S.nextId = T.nextId ∧ DocsRel i e S.docs T.docs

/-- Recognizer for create calls in the users trace. -/
def isCreateEvent : UserEvent → Bool
  | UserEvent.createCall _ => true
  | UserEvent.updateCall _ _ => false

/-! ## Concrete fixtures used by witnesses and counterexamples -/

/-- A source user with a mapped team and a stored last-activity stamp. -/
def uGood : SourceUser :=
  { mongoId := "m1", email := some "A@x.com", profileImg := none, isOnBoarded := none,
    firstName := "F", lastName := "L", phone := none,
    team := [{ teamId := "628bff8d44cd3e01b746b737", status := "Approved" }],
    teamActive := none, lastActive := some "2020-01-01" }

/-- Like `uGood` but without a `lastActive` stamp, so the transform reads
the current clock. -/
def uNoLastActive : SourceUser :=
  { uGood with mongoId := "m2", email := some "B@x.com", lastActive := none }

/-- A source user without an email field: the transform throws on it. -/
def uBadEmail : SourceUser := { uGood with mongoId := "m3", email := none }

/-- A source user whose whole membership list fails to map. -/
def uNoTeams : SourceUser :=
  { uGood with mongoId := "m4", email := some "C@x.com", team := [] }

/-- Fields of a pre-existing target user record whose email collides with
the transform of `uGood`. -/
def oldUserFields : NewUser :=
  { mongoId := "old", email := "a@x.com", emailVerified := false, image := none,
    isOnboardingComplete := false, name := "OLD", firstName := "O", lastName := "D",
    phone := "", orgIds := [], activeOrgId := none,
    presence := { lastSeen := "1999", status := "offline" }, providers := [] }

/-- A target user store already holding `oldUserFields`. -/
def preStore : UserStore := { docs := [{ docId := 0, fields := oldUserFields }], nextId := 1 }

def tdA : TagData :=
  { mongoId := "ta", team := "628bff8d44cd3e01b746b737", tag := "Hot", userId := some "u1" }

def tdB : TagData :=
  { mongoId := "tb", team := "628bff8d44cd3e01b746b737", tag := "Cold", userId := some "u1" }

/-- A tag document without a `userId` field: building the new tag record
throws on it. -/
def tdNoUser : TagData :=
  { mongoId := "tn", team := "628bff8d44cd3e01b746b737", tag := "NoUser", userId := none }

def refA : TagRef := { tagObject := "ta", type := "property", refWith := "p1" }

def propsP : List PropertyDoc := [{ docId := 100, mongoId := "p1" }]

def tagStoreP : TagStore := emptyTagStore propsP

/-- The transformed record of `uGood` at clock reading T. -/
def nuGood : NewUser := (transformUser "T" uGood).toOption.getD oldUserFields

/-- The pre-existing record of `preStore`. -/
def oldUserDoc : UserDoc := { docId := 0, fields := oldUserFields }

/-- The tag record that `runTags [tdA, tdB] [refA] tagStoreP` creates for
`tdA`. -/
def tagDocA : TagDoc :=
  { docId := 0, idField := none, orgId := some "nd73x7djt7ez0zmyp49n6t0x3h6ztghc",
    name := "Hot", recordType := "properties",
    userIds := [{ userId := some "jx7af8p9kcxg2hy7b4zgzez5056ztvpv", role := "tag:admin" }],
    mongoId := "ta" }

/-! ## General helper lemmas -/

theorem foldl_preserves {σ α : Type} (f : σ → α → σ) (P : σ → Prop)
    (h : ∀ s a, P s → P (f s a)) : ∀ (l : List α) (s : σ), P s → P (l.foldl f s)
  | [], _, hs => hs
  | a :: l, s, hs => foldl_preserves f P h l (f s a) (h s a hs)

theorem assocLookup_mem : ∀ (l : List (String × String)) (k v : String),
    assocLookup l k = some v → ∃ p ∈ l, p.2 = v := by
  intro l
  induction l with
  | nil => intro k v h; simp [assocLookup] at h
  | cons p ps ih =>
    intro k v h
    by_cases hk : p.1 = k
    · refine ⟨p, List.mem_cons_self p ps, ?_⟩
      simp [assocLookup, hk] at h
      exact h
    · obtain ⟨q, hq, hv⟩ := ih k v (by simpa [assocLookup, hk] using h)
      exact ⟨q, List.mem_cons_of_mem p hq, hv⟩

/-! ## Claim C4 : organization mapping -/

/-- Claim C4 as stated is false on tags.js: for the falsy input (empty or
missing id) mapOrgId there returns the fixed identifier of tags.js:253,
which is not `null` and not a value of the static table. -/
theorem spec_C4_counterexample :
    mapOrgIdTags (some "") = some "nd70p3ngxkh8n7chaddb81tjpx7166mr" ∧
    (∀ p ∈ tagsOrgIdMap, p.2 ≠ "nd70p3ngxkh8n7chaddb81tjpx7166mr") ∧
    mapOrgIdTags (some "") ≠ none :=
  ⟨rfl, by decide, by decide⟩

/-- Claim C4, amended.  The users.js mapOrgId is total and strict: for
every input it returns either a value registered in its static table or
`none`, and it never throws (it is a total function).  The tags.js mapOrgId
satisfies the same property for every non-falsy input, but maps the falsy
inputs (missing id, empty string) to the fixed fallback identifier of
tags.js:253, which is not registered in the table. -/
theorem spec_C4_org_mapping :
    (∀ x : Option String,
       mapOrgIdUsers x = none ∨ ∃ p ∈ usersOrgIdMap, mapOrgIdUsers x = some p.2) ∧
    (∀ x : Option String, x ≠ none → x ≠ some "" →
       mapOrgIdTags x = none ∨ ∃ p ∈ tagsOrgIdMap, mapOrgIdTags x = some p.2) ∧
    mapOrgIdTags none = some "nd70p3ngxkh8n7chaddb81tjpx7166mr" ∧
    mapOrgIdTags (some "") = some "nd70p3ngxkh8n7chaddb81tjpx7166mr" := by
  refine ⟨?_, ?_, rfl, rfl⟩
  · intro x
    match x with
    | none => exact Or.inl rfl
    | some s =>
      by_cases hs : s = ""
      · exact Or.inl (by simp [mapOrgIdUsers, hs])
      · cases hv : assocLookup usersOrgIdMap s with
        | none => exact Or.inl (by simp [mapOrgIdUsers, hs, hv])
        | some v =>
          obtain ⟨p, hp, hpv⟩ := assocLookup_mem _ _ _ hv
          exact Or.inr ⟨p, hp, by simp [mapOrgIdUsers, hs, hv, hpv]⟩
  · intro x hne hne2
    match x with
    | none => exact absurd rfl hne
    | some s =>
      have hs : s ≠ "" := fun h => hne2 (by rw [h])
      cases hv : assocLookup tagsOrgIdMap s with
      | none => exact Or.inl (by simp [mapOrgIdTags, hs, hv])
      | some v =>
        obtain ⟨p, hp, hpv⟩ := assocLookup_mem _ _ _ hv
        exact Or.inr ⟨p, hp, by simp [mapOrgIdTags, hs, hv, hpv]⟩

/-- Witness for the amended C4 theorem at concrete inputs. -/
theorem spec_C4_org_mapping_witness :
    (mapOrgIdUsers (some "zzz") = none ∨
       ∃ p ∈ usersOrgIdMap, mapOrgIdUsers (some "zzz") = some p.2) ∧
    (mapOrgIdTags (some "628bff8d44cd3e01b746b737") = none ∨
       ∃ p ∈ tagsOrgIdMap, mapOrgIdTags (some "628bff8d44cd3e01b746b737") = some p.2) :=
  ⟨spec_C4_org_mapping.1 (some "zzz"),
   spec_C4_org_mapping.2.1 (some "628bff8d44cd3e01b746b737") (by decide) (by decide)⟩

/-! ## Claim C7 : users without resolved organizations are never created -/

/-- Claim C7: a source user whose resolved membership list is empty is
skipped by the loop body of migrateUsers - the skip counter increments, the
store, the migrated counter and the issued-write trace are unchanged, and
in particular no create call is issued for that user. -/
theorem spec_C7_empty_orgs_skipped (now : String) (st : UsersRunState) (u : SourceUser)
    (nu : NewUser) (h1 : transformUser now u = Except.ok nu) (h2 : nu.orgIds = []) :
    stepUser now st u = ({ st with skippedCount := st.skippedCount + 1 }, false) := by
  unfold stepUser classify
  rw [h1]
  simp [h2]

/-- Witness for C7: the fixture user with an unmapped membership list. -/
theorem spec_C7_empty_orgs_skipped_witness :
    stepUser "T" initUsersState uNoTeams =
      ({ initUsersState with skippedCount := 1 }, false) :=
  spec_C7_empty_orgs_skipped "T" initUsersState uNoTeams _ rfl rfl

/-! ## Claim C10 : the update branch counts successful updates as errors -/

/-- Claim C10: in migrateUsers, when a duplicate user is found by email and
the update mutation succeeds, the iteration is still counted as an error:
the increment of the undeclared `updatedCount` (users.js:138) throws a
ReferenceError inside the try block and the catch at users.js:139-142
increments `errorCount`.  The run state carries only the three declared
counters (migrated, skipped, error), so the final summary of users.js:157
has no updated count to report. -/
theorem spec_C10_update_counted_as_error (now : String) (st : UsersRunState)
    (u : SourceUser) (nu : NewUser) (d : UserDoc)
    (h1 : transformUser now u = Except.ok nu) (h2 : nu.orgIds ≠ [])
    (h3 : findByEmail st.store (withActive nu).email = some d) :
    stepUser now st u =
      ({ st with
          store := updateDoc st.store d.docId (withActive nu)
          errorCount := st.errorCount + 1
          events := st.events ++ [UserEvent.updateCall d.docId (withActive nu)] }, false) := by
  unfold stepUser classify
  rw [h1]
  simp [List.isEmpty_iff, h2, h3]

/-- Witness for C10: running the fixture duplicate user against the
pre-populated store. -/
theorem spec_C10_update_counted_as_error_witness :
    stepUser "T" { initUsersState with store := preStore } uGood =
      ({ initUsersState with
          store := updateDoc preStore oldUserDoc.docId (withActive nuGood)
          errorCount := 1
          events := [UserEvent.updateCall oldUserDoc.docId (withActive nuGood)] }, false) :=
  spec_C10_update_counted_as_error "T" { initUsersState with store := preStore } uGood
    nuGood oldUserDoc rfl (by decide) rfl

/-! ## Claim C2 : the upsert decision -/

/-- Claim C2 as stated is false at a concrete input: for a candidate user
whose duplicate matches only by the natural key (email) and not by any
source-originated identifier, migrateUsers does not skip - it issues an
update call and overwrites the existing record. -/
theorem spec_C2_counterexample :
    ((runUsers "T" [uGood] preStore).1.events =
       [UserEvent.updateCall 0 (withActive nuGood)]) ∧
    (runUsers "T" [uGood] preStore).1.store ≠ preStore := by
  exact ⟨by decide, by decide⟩

/-- Claim C2, amended.  In users.js the only duplicate check is the lookup
by email (users.js:130); on a match an update call is issued carrying the
full transformed record plus the identifier of the existing record, on no
match a create call is issued - a duplicate is never skipped.  In tags.js
the duplicate check is by source identifier or by name (tags.js:163); on a
match the tag is skipped - a duplicate is never updated. -/
theorem spec_C2_upsert_decision :
    (∀ now st u nu d, transformUser now u = Except.ok nu → nu.orgIds ≠ [] →
       findByEmail st.store (withActive nu).email = some d →
       (stepUser now st u).1.events =
           st.events ++ [UserEvent.updateCall d.docId (withActive nu)] ∧
         (stepUser now st u).1.store = updateDoc st.store d.docId (withActive nu)) ∧
    (∀ now st u nu, transformUser now u = Except.ok nu → nu.orgIds ≠ [] →
       findByEmail st.store (withActive nu).email = none →
       (stepUser now st u).1.events = st.events ++ [UserEvent.createCall (withActive nu)] ∧
         (stepUser now st u).1.store = createDoc st.store (withActive nu)) ∧
    (∀ fr ids names st td, (some td.mongoId ∈ ids) ∨ (td.tag ∈ names) →
       processTagData fr ids names st td =
         { st with events := st.events ++ [TagEvent.skipDup td.mongoId] }) := by
  refine ⟨?_, ?_, ?_⟩
  · intro now st u nu d h1 h2 h3
    unfold stepUser classify
    rw [h1]
    simp [List.isEmpty_iff, h2, h3]
  · intro now st u nu h1 h2 h3
    unfold stepUser classify
    rw [h1]
    simp [List.isEmpty_iff, h2, h3]
  · intro fr ids names st td hdup
    unfold processTagData
    rw [if_pos hdup]

/-- Witness for the amended C2 theorem: the update leg at the fixture
duplicate, the create leg on an empty store, and the tag skip leg on a
name match. -/
theorem spec_C2_upsert_decision_witness :
    ((stepUser "T" { initUsersState with store := preStore } uGood).1.events =
        [UserEvent.updateCall 0 (withActive nuGood)] ∧
      (stepUser "T" { initUsersState with store := preStore } uGood).1.store =
        updateDoc preStore 0 (withActive nuGood)) ∧
    ((stepUser "T" initUsersState uGood).1.events =
        [UserEvent.createCall (withActive nuGood)] ∧
      (stepUser "T" initUsersState uGood).1.store =
        createDoc emptyUserStore (withActive nuGood)) ∧
    (processTagData [] [] ["Hot"] { store := tagStoreP, createdTags := [], events := [] } tdA =
      { store := tagStoreP, createdTags := [], events := [TagEvent.skipDup "ta"] }) :=
  ⟨spec_C2_upsert_decision.1 "T" { initUsersState with store := preStore } uGood
      nuGood oldUserDoc rfl (by decide) rfl,
   spec_C2_upsert_decision.2.1 "T" initUsersState uGood nuGood rfl (by decide) rfl,
   spec_C2_upsert_decision.2.2 [] [] ["Hot"] _ tdA (by decide)⟩

/-! ## Claim C3 : failure isolation of per-record transform errors -/

/-- Claim C3 as stated is false at a concrete input: in migrateUsers a
per-record transform failure (missing email) is not caught at record
granularity.  It reaches the run-level catch: the run aborts with the error
counter still zero, no write issued, and the remaining source users never
processed. -/
theorem spec_C3_counterexample :
    (runUsers "T" [uBadEmail, uGood] emptyUserStore).2 = true ∧
    (runUsers "T" [uBadEmail, uGood] emptyUserStore).1.errorCount = 0 ∧
    (runUsers "T" [uBadEmail, uGood] emptyUserStore).1.events = [] := by
  exact ⟨by decide, by decide, by decide⟩

/-- Claim C3, amended.  In tags.js a per-record failure (the throw from
the missing `userId` while building the new tag record) is caught by the
per-tag catch: the iteration only appends a record-error to the trace, the
store and the created map are untouched, and the loop continues - though no
error counter exists there to increment.  In users.js the transform runs
outside the two inner try/catch blocks, so a transform failure aborts the
loop at that record with no error counted. -/
theorem spec_C3_record_failure_isolation :
    (∀ fr ids names st td, ¬((some td.mongoId ∈ ids) ∨ (td.tag ∈ names)) →
       td.userId = none →
       processTagData fr ids names st td =
         { st with events := st.events ++ [TagEvent.recordError td.mongoId] }) ∧
    (∀ now st u us, u.email = none → runUsersFrom now (u :: us) st = (st, true)) := by
  constructor
  · intro fr ids names st td hdup huser
    unfold processTagData
    rw [if_neg hdup, huser]
  · intro now st u us he
    unfold runUsersFrom stepUser classify transformUser
    rw [he]

/-- Witness for the amended C3 theorem at the fixture records. -/
theorem spec_C3_record_failure_isolation_witness :
    (processTagData [] [] [] { store := tagStoreP, createdTags := [], events := [] } tdNoUser =
       { store := tagStoreP, createdTags := [], events := [TagEvent.recordError "tn"] }) ∧
    runUsersFrom "T" [uBadEmail] initUsersState = (initUsersState, true) :=
  ⟨spec_C3_record_failure_isolation.1 [] [] [] _ tdNoUser (by decide) rfl,
   spec_C3_record_failure_isolation.2 "T" initUsersState uBadEmail [] rfl⟩

/-! ## Claim C8 : the association loop is nested inside the creation loop -/

/-- Claim C8 evaluated at the failing input.  With two fresh tags where the
first has one property reference, updateTags issues the existing-link check
and the add-link call for the first tag before the second tag is created,
and iterates the reference set of the first tag a second time after the
second creation: the association loop of tags.js:202-236 sits inside the
creation loop of tags.js:157, not behind it as a second pass. -/
theorem spec_C8_nested_association_trace :
    (runTags [tdA, tdB] [refA] tagStoreP).events =
      [TagEvent.createTag "ta" 0, TagEvent.linkCheck 100 0, TagEvent.addLink 100 0,
       TagEvent.createTag "tb" 1, TagEvent.linkCheck 100 0] := by
  decide

/-! ## Claim C9 : the paginated extraction loop -/

/-- Unfolding of the extraction loop over a finite source: from any cursor
position the loop returns the accumulator followed by all records from
that position on.  The fuel argument drives the induction and bounds the
number of remaining records. -/
theorem fetchFrom_eq_drop {α : Type} (props : List α) (n : Nat) (hn : 0 < n) :
    ∀ (fuel cursor : Nat) (acc : List α), props.length - cursor ≤ fuel →
      fetchFrom props n cursor acc = acc ++ props.drop cursor := by
  intro fuel
  induction fuel with
  | zero =>
    intro cursor acc hf
    have hc : props.length ≤ cursor := by omega
    have hdrop : props.drop cursor = [] := List.drop_eq_nil_of_le hc
    rw [fetchFrom]
    simp [getPropertiesPage, hdrop]
  | succ k ih =>
    intro cursor acc hf
    rw [fetchFrom]
    by_cases hc : props.length ≤ cursor
    · have hdrop : props.drop cursor = [] := List.drop_eq_nil_of_le hc
      simp [getPropertiesPage, hdrop]
    · have hlt : cursor < props.length := Nat.lt_of_not_le hc
      have hdlen : (props.drop cursor).length = props.length - cursor :=
        List.length_drop cursor props
      have hplen : ((props.drop cursor).take n).length = min n (props.length - cursor) := by
        rw [List.length_take, hdlen]
      have hppos : 0 < ((props.drop cursor).take n).length := by
        rw [hplen]; omega
      simp only [getPropertiesPage]
      rw [dif_neg (by omega)]
      by_cases hdone : props.length ≤ cursor + ((props.drop cursor).take n).length
      · rw [if_pos (by simpa using hdone)]
        have hfull : (props.length - cursor) ≤ n := by
          rw [hplen] at hdone
          omega
        have htake : (props.drop cursor).take n = props.drop cursor :=
          List.take_of_length_le (by rw [hdlen]; exact hfull)
        rw [htake]
      · rw [if_neg (by simpa using hdone)]
        rw [ih (cursor + ((props.drop cursor).take n).length) (acc ++ (props.drop cursor).take n)
          (by rw [hplen]; rw [hplen] at hdone; omega)]
        rw [List.append_assoc]
        congr 1
        have hdd : props.drop (cursor + ((props.drop cursor).take n).length) =
            (props.drop cursor).drop (((props.drop cursor).take n).length) := by
          rw [List.drop_drop, Nat.add_comm]
        rw [hdd]
        by_cases hnl : n ≤ (props.drop cursor).length
        · have hmin : ((props.drop cursor).take n).length = n := by
            rw [List.length_take]; omega
          rw [hmin, List.take_append_drop]
        · have hle : (props.drop cursor).length ≤ n := Nat.le_of_not_le hnl
          have hmin : ((props.drop cursor).take n).length = (props.drop cursor).length := by
            rw [List.length_take]; omega
          rw [hmin, List.drop_length, List.take_of_length_le hle]
          simp

/-- Claim C9: over the paginated source model, the extraction loop of
updateCoordinates terminates (it is a total function by the decreasing
cursor) and accumulates exactly the concatenation of the returned pages,
which is the whole stored collection, for any positive page size. -/
theorem spec_C9_pagination_extracts_all {α : Type} (props : List α) (numItems : Nat)
    (h : 0 < numItems) : fetchAllProperties props numItems = props := by
  unfold fetchAllProperties
  rw [fetchFrom_eq_drop props numItems h props.length 0 [] (by omega)]
  simp

/-- Witness for C9 at a concrete collection and page size. -/
theorem spec_C9_pagination_extracts_all_witness :
    fetchAllProperties [10, 20, 30, 40, 50] 2 = [10, 20, 30, 40, 50] :=
  spec_C9_pagination_extracts_all [10, 20, 30, 40, 50] 2 (by decide)

/-! ## Tag run invariants used by C1 and C5 -/

theorem processRef_store_tags (st : TagsRunState) (c : Nat) (r : TagRef) :
    (processRef st c r).store.tags = st.store.tags := by
  unfold processRef
  split
  · rfl
  · dsimp only
    split
    · rfl
    · simp [addTagToRecord]

theorem sweepRefs_store_tags (fr : List TagRef) (st : TagsRunState) :
    (sweepRefs fr st).store.tags = st.store.tags := by
  unfold sweepRefs
  refine foldl_preserves _ (fun s : TagsRunState => s.store.tags = st.store.tags) ?_ _ _ rfl
  intro s p hs
  refine foldl_preserves _ (fun s2 : TagsRunState => s2.store.tags = st.store.tags) ?_ _ _ hs
  intro s2 r h2
  rw [processRef_store_tags]
  exact h2

theorem processTagData_tags (fr : List TagRef) (ids : List (Option String))
    (names : List String) (st : TagsRunState) (td : TagData) (t : TagDoc)
    (h : t ∈ (processTagData fr ids names st td).store.tags) :
    t ∈ st.store.tags ∨ t.recordType = "properties" := by
  unfold processTagData at h
  split at h
  · exact Or.inl h
  · split at h
    · exact Or.inl h
    · rw [sweepRefs_store_tags] at h
      simp only [createTagFromMongo] at h
      rcases List.mem_append.mp h with hin | hnew
      · exact Or.inl hin
      · right
        rw [List.mem_singleton.mp hnew]

theorem runTags_tags_invariant (tds : List TagData) (tagRefs : List TagRef)
    (s0 : TagStore) :
    ∀ t ∈ (runTags tds tagRefs s0).store.tags, t ∈ s0.tags ∨ t.recordType = "properties" := by
  simp only [runTags]
  refine foldl_preserves _
    (fun s : TagsRunState => ∀ t ∈ s.store.tags, t ∈ s0.tags ∨ t.recordType = "properties")
    ?_ _ _ ?_
  · intro s td hs t ht
    rcases processTagData_tags _ _ _ _ _ _ ht with hin | hp
    · exact hs t hin
    · exact Or.inr hp
  · intro t ht
    exact Or.inl ht

theorem hasContactRefs_filtered (tagRefs : List TagRef) (m : String) :
    hasContactRefs (refsFor (filterPropertyRefs tagRefs) m) = false := by
  unfold hasContactRefs refsFor filterPropertyRefs
  rw [List.any_eq_false]
  intro r hr
  have h1 := (List.mem_filter.mp hr).1
  have h2 := (List.mem_filter.mp h1).2
  rw [beq_iff_eq] at h2
  simp [h2]

/-! ## Claim C1 : the recordType of created tags -/

/-- Claim C1: for every tag created by updateTags, if the reference set of
the tag (the group of fetched references with its identifier, after the
property-type filter of tags.js:124-126) held contact-type references and
no property-type references, the created recordType would be `contacts`
(vacuously: the filtered set never holds contact-type references), and in
every other case the created recordType is `properties` - indeed the
creation at tags.js:182 always stores the literal `properties` and the
classification computed at tags.js:174-176 is never read. -/
theorem spec_C1_recordType (tds : List TagData) (tagRefs : List TagRef) (s0 : TagStore)
    (t : TagDoc) (h1 : t ∈ (runTags tds tagRefs s0).store.tags) (h2 : t ∉ s0.tags) :
    ((hasContactRefs (refsFor (filterPropertyRefs tagRefs) t.mongoId) = true ∧
        hasPropertyRefs (refsFor (filterPropertyRefs tagRefs) t.mongoId) = false) →
      t.recordType = "contacts") ∧
    (¬(hasContactRefs (refsFor (filterPropertyRefs tagRefs) t.mongoId) = true ∧
        hasPropertyRefs (refsFor (filterPropertyRefs tagRefs) t.mongoId) = false) →
      t.recordType = "properties") := by
  constructor
  · intro hcp
    have hv := hasContactRefs_filtered tagRefs t.mongoId
    rw [hv] at hcp
    exact absurd hcp.1 (by simp)
  · intro _
    rcases runTags_tags_invariant tds tagRefs s0 t h1 with hin | hp
    · exact absurd hin h2
    · exact hp

/-- Witness for C1: the tag created for the first fixture tag document. -/
theorem spec_C1_recordType_witness :
    ((hasContactRefs (refsFor (filterPropertyRefs [refA]) tagDocA.mongoId) = true ∧
        hasPropertyRefs (refsFor (filterPropertyRefs [refA]) tagDocA.mongoId) = false) →
      tagDocA.recordType = "contacts") ∧
    (¬(hasContactRefs (refsFor (filterPropertyRefs [refA]) tagDocA.mongoId) = true ∧
        hasPropertyRefs (refsFor (filterPropertyRefs [refA]) tagDocA.mongoId) = false) →
      tagDocA.recordType = "properties") :=
  spec_C1_recordType [tdA, tdB] [refA] tagStoreP tagDocA (by decide) (by decide)

/-! ## Claim C5 : no duplicate links -/

theorem mem_tagsForRecord_of_mem_links (s : TagStore) (rid tid : Nat)
    (h : (rid, tid) ∈ s.links) : tid ∈ tagsForRecord s rid := by
  unfold tagsForRecord
  exact List.mem_map.mpr ⟨(rid, tid), List.mem_filter.mpr ⟨h, by simp⟩, rfl⟩

theorem processRef_links_nodup (st : TagsRunState) (c : Nat) (r : TagRef)
    (h : st.store.links.Nodup) : (processRef st c r).store.links.Nodup := by
  unfold processRef
  split
  · exact h
  · dsimp only
    split
    · exact h
    · next hmem =>
      simp only [addTagToRecord]
      simp [List.nodup_append, h]
      exact fun hin => hmem (mem_tagsForRecord_of_mem_links _ _ _ hin)

theorem sweepRefs_links_nodup (fr : List TagRef) (st : TagsRunState)
    (h : st.store.links.Nodup) : (sweepRefs fr st).store.links.Nodup := by
  unfold sweepRefs
  refine foldl_preserves _ (fun s : TagsRunState => s.store.links.Nodup) ?_ _ _ h
  intro s p hs
  refine foldl_preserves _ (fun s2 : TagsRunState => s2.store.links.Nodup) ?_ _ _ hs
  intro s2 r h2
  exact processRef_links_nodup s2 p.2 r h2

theorem processTagData_links_nodup (fr : List TagRef) (ids : List (Option String))
    (names : List String) (st : TagsRunState) (td : TagData)
    (h : st.store.links.Nodup) :
    (processTagData fr ids names st td).store.links.Nodup := by
  unfold processTagData
  split
  · exact h
  · split
    · exact h
    · exact sweepRefs_links_nodup _ _ (by simpa [createTagFromMongo] using h)

theorem filter_pair_len_le_one_of_nodup {l : List (Nat × Nat)} (h : l.Nodup)
    (p : Nat × Nat) : (l.filter (fun q => q == p)).length ≤ 1 := by
  induction l with
  | nil => simp
  | cons a l ih =>
    rw [List.nodup_cons] at h
    by_cases hap : a = p
    · subst hap
      rw [List.filter_cons_of_pos (by simp)]
      have hnil : l.filter (fun q => q == a) = [] := by
        rw [List.filter_eq_nil_iff]
        intro q hq hqa
        have hqe : q = a := by simpa using hqa
        exact h.1 (hqe ▸ hq)
      rw [hnil]
      simp
    · rw [List.filter_cons_of_neg (by simp [hap])]
      exact ih h.2

theorem nodup_of_filter_pair_len {l : List (Nat × Nat)}
    (h : ∀ p : Nat × Nat, (l.filter (fun q => q == p)).length ≤ 1) : l.Nodup := by
  induction l with
  | nil => simp
  | cons a l ih =>
    rw [List.nodup_cons]
    refine ⟨?_, ?_⟩
    · intro hmem
      have h1 := h a
      rw [List.filter_cons_of_pos (by simp)] at h1
      have h2 : a ∈ l.filter (fun q => q == a) := List.mem_filter.mpr ⟨hmem, by simp⟩
      have h3 : 0 < (l.filter (fun q => q == a)).length :=
        List.length_pos.mpr (fun hnil => by simp [hnil] at h2)
      rw [List.length_cons] at h1
      omega
    · refine ih ?_
      intro p
      have h1 := h p
      by_cases hap : a = p
      · rw [List.filter_cons_of_pos (by simp [hap])] at h1
        rw [List.length_cons] at h1
        omega
      · rwa [List.filter_cons_of_neg (by simp [hap])] at h1

/-- Claim C5: updateTags issues an add-link call only when the candidate
tag is absent from the links of the record fetched just before the
decision (tags.js:214-226), so if every tag-record pair is linked at most
once before a run, the same holds after the run - and hence after any
number of runs of the association logic. -/
theorem spec_C5_no_duplicate_links (tds : List TagData) (tagRefs : List TagRef)
    (s0 : TagStore) (h : ∀ rid tid : Nat, linkCount s0 rid tid ≤ 1) :
    ∀ rid tid : Nat, linkCount (runTags tds tagRefs s0).store rid tid ≤ 1 := by
  have h0 : s0.links.Nodup := nodup_of_filter_pair_len (fun p => h p.1 p.2)
  have hrun : (runTags tds tagRefs s0).store.links.Nodup := by
    simp only [runTags]
    refine foldl_preserves _ (fun s : TagsRunState => s.store.links.Nodup) ?_ _ _ h0
    intro s td hs
    exact processTagData_links_nodup _ _ _ _ _ hs
  intro rid tid
  exact filter_pair_len_le_one_of_nodup hrun (rid, tid)

/-- Witness for C5 at the fixture run and one concrete pair. -/
theorem spec_C5_no_duplicate_links_witness :
    linkCount (runTags [tdA, tdB] [refA] tagStoreP).store 100 0 ≤ 1 :=
  spec_C5_no_duplicate_links [tdA, tdB] [refA] tagStoreP
    (by intro rid tid; simp [linkCount, tagStoreP, emptyTagStore]) 100 0

/-! ## Lemmas on the user transform and the loop-body classification -/

theorem transformUser_none (now : String) (u : SourceUser) (h : u.email = none) :
    transformUser now u = Except.error "TypeError" := by
  simp [transformUser, h]

theorem transformUser_isOk (now : String) (u : SourceUser) (e : String)
    (h : u.email = some e) :
    ∃ nu, transformUser now u = Except.ok nu ∧ nu.email = jsToLower e ∧
      nu.orgIds = uResolvedOrgs u := by
  cases ht : transformUser now u with
  | error msg =>
    simp only [transformUser, h] at ht
    exact Except.noConfusion ht
  | ok nu =>
    simp only [transformUser, h, Except.ok.injEq] at ht
    refine ⟨nu, rfl, ?_, ?_⟩
    · rw [← ht]
    · rw [← ht]
      rfl

theorem transformUser_det (n1 n2 : String) (u : SourceUser) (h : u.lastActive ≠ none) :
    transformUser n1 u = transformUser n2 u := by
  cases hla : u.lastActive with
  | none => exact absurd hla h
  | some t => cases he : u.email <;> simp [transformUser, he, hla]

theorem withActive_email (nu : NewUser) : (withActive nu).email = nu.email := by
  unfold withActive
  split
  · split <;> rfl
  · rfl

theorem withActive_orgIds (nu : NewUser) : (withActive nu).orgIds = nu.orgIds := by
  unfold withActive
  split
  · split <;> rfl
  · rfl

theorem nuOf_det (n1 n2 : String) (u : SourceUser) (h : u.lastActive ≠ none) :
    nuOf n1 u = nuOf n2 u := by
  unfold nuOf
  rw [transformUser_det n1 n2 u h]

theorem nuOf_some (now : String) (u : SourceUser) (e : String) (h : u.email = some e) :
    ∃ nu, nuOf now u = some nu ∧ nu.email = jsToLower e ∧
      nu.orgIds = uResolvedOrgs u := by
  obtain ⟨nu0, ht, hem, hor⟩ := transformUser_isOk now u e h
  refine ⟨withActive nu0, ?_, ?_, ?_⟩
  · unfold nuOf
    rw [ht]
    rfl
  · rw [withActive_email, hem]
  · rw [withActive_orgIds, hor]

theorem classify_fatal (now : String) (S : UserStore) (u : SourceUser)
    (h : u.email = none) : classify now S u = UStep.fatal := by
  unfold classify
  rw [transformUser_none now u h]

theorem classify_skip (now : String) (S : UserStore) (u : SourceUser) (e : String)
    (h1 : u.email = some e) (h2 : uResolvedOrgs u = []) :
    classify now S u = UStep.skip := by
  obtain ⟨nu0, ht, _, hor⟩ := transformUser_isOk now u e h1
  unfold classify
  rw [ht]
  have : nu0.orgIds.isEmpty = true := by rw [hor, h2]; rfl
  simp [this]

theorem classify_upd (now : String) (S : UserStore) (u : SourceUser) (e : String)
    (nu : NewUser) (d : UserDoc) (h1 : u.email = some e)
    (h2 : uResolvedOrgs u ≠ []) (hnu : nuOf now u = some nu)
    (hf : findByEmail S nu.email = some d) :
    classify now S u = UStep.upd d nu := by
  obtain ⟨nu0, ht, _, hor⟩ := transformUser_isOk now u e h1
  have hnu0 : nu = withActive nu0 := by
    have heq : nuOf now u = some (withActive nu0) := by
      unfold nuOf
      rw [ht]
      rfl
    rw [heq] at hnu
    exact (Option.some.injEq _ _ ▸ hnu).symm
  subst hnu0
  unfold classify
  rw [ht]
  have hne : nu0.orgIds.isEmpty = false := by
    rw [hor]
    cases hc : uResolvedOrgs u with
    | nil => exact absurd hc h2
    | cons a l => rfl
  simp only [hne, Bool.false_eq_true, if_false]
  rw [hf]

theorem classify_cre (now : String) (S : UserStore) (u : SourceUser) (e : String)
    (nu : NewUser) (h1 : u.email = some e)
    (h2 : uResolvedOrgs u ≠ []) (hnu : nuOf now u = some nu)
    (hf : findByEmail S nu.email = none) :
    classify now S u = UStep.cre nu := by
  obtain ⟨nu0, ht, _, hor⟩ := transformUser_isOk now u e h1
  have hnu0 : nu = withActive nu0 := by
    have heq : nuOf now u = some (withActive nu0) := by
      unfold nuOf
      rw [ht]
      rfl
    rw [heq] at hnu
    exact (Option.some.injEq _ _ ▸ hnu).symm
  subst hnu0
  unfold classify
  rw [ht]
  have hne : nu0.orgIds.isEmpty = false := by
    rw [hor]
    cases hc : uResolvedOrgs u with
    | nil => exact absurd hc h2
    | cons a l => rfl
  simp only [hne, Bool.false_eq_true, if_false]
  rw [hf]

/-! ## Lemmas on the modelled user store -/

theorem findByEmail_some_email (s : UserStore) (e : String) (d : UserDoc)
    (h : findByEmail s e = some d) : d.fields.email = e := by
  have := List.find?_some h
  simpa using this

theorem findByEmail_some_mem (s : UserStore) (e : String) (d : UserDoc)
    (h : findByEmail s e = some d) : d ∈ s.docs :=
  List.mem_of_find?_eq_some h

theorem findByEmail_none_ne (s : UserStore) (e : String)
    (h : findByEmail s e = none) : ∀ d ∈ s.docs, d.fields.email ≠ e := by
  intro d hd
  have := List.find?_eq_none.mp h d hd
  simpa using this

theorem wf_docId_inj {s : UserStore} (hWF : WFStore s) {d1 d2 : UserDoc}
    (h1 : d1 ∈ s.docs) (h2 : d2 ∈ s.docs) (h : d1.docId = d2.docId) : d1 = d2 :=
  List.inj_on_of_nodup_map hWF.1 h1 h2 h

theorem updateDoc_nextId (s : UserStore) (i : Nat) (nu : NewUser) :
    (updateDoc s i nu).nextId = s.nextId := rfl

theorem updateDoc_self {s : UserStore} {d : UserDoc} {nu : NewUser}
    (hWF : WFStore s) (hmem : d ∈ s.docs) (hfield : d.fields = nu) :
    updateDoc s d.docId nu = s := by
  unfold updateDoc
  have hmap : s.docs.map
      (fun x => if x.docId = d.docId then { x with fields := nu } else x) = s.docs := by
    have hcongr : ∀ x ∈ s.docs,
        (if x.docId = d.docId then { x with fields := nu } else x) = x := by
      intro x hx
      by_cases hid : x.docId = d.docId
      · have hxd : x = d := wf_docId_inj hWF hx hmem hid
        subst hxd
        rw [if_pos rfl, ← hfield]
      · rw [if_neg hid]
    calc s.docs.map (fun x => if x.docId = d.docId then { x with fields := nu } else x)
        = s.docs.map id := List.map_congr_left hcongr
      _ = s.docs := List.map_id s.docs
  rw [hmap]

theorem find?_map_stable (l : List UserDoc) (f : UserDoc → UserDoc) (p : UserDoc → Bool)
    (h1 : ∀ x ∈ l, p (f x) = p x) (h2 : ∀ x ∈ l, p x = true → f x = x) :
    (l.map f).find? p = l.find? p := by
  induction l with
  | nil => rfl
  | cons a l ih =>
    rw [List.map_cons]
    cases hp : p a with
    | true =>
      have hpf : p (f a) = true := (h1 a (List.mem_cons_self a l)).trans hp
      simp only [List.find?_cons, hp, hpf]
      rw [h2 a (List.mem_cons_self a l) hp]
    | false =>
      have hpf : p (f a) = false := (h1 a (List.mem_cons_self a l)).trans hp
      simp only [List.find?_cons, hp, hpf]
      exact ih (fun x hx => h1 x (List.mem_cons_of_mem a hx))
        (fun x hx => h2 x (List.mem_cons_of_mem a hx))

theorem findByEmail_updateDoc_other {s : UserStore} {d2 : UserDoc} {nu : NewUser}
    (e : String) (hWF : WFStore s) (hf : findByEmail s nu.email = some d2)
    (hne : e ≠ nu.email) :
    findByEmail (updateDoc s d2.docId nu) e = findByEmail s e := by
  have hd2mem := findByEmail_some_mem _ _ _ hf
  have hd2e := findByEmail_some_email _ _ _ hf
  unfold findByEmail updateDoc
  apply find?_map_stable
  · intro x hx
    by_cases hid : x.docId = d2.docId
    · have hxd : x = d2 := wf_docId_inj hWF hx hd2mem hid
      subst hxd
      rw [if_pos rfl]
      show (nu.email == e) = (x.fields.email == e)
      rw [hd2e]
    · rw [if_neg hid]
  · intro x hx hpx
    by_cases hid : x.docId = d2.docId
    · have hxd : x = d2 := wf_docId_inj hWF hx hd2mem hid
      subst hxd
      have : x.fields.email = e := by simpa using hpx
      exact absurd (this.symm.trans hd2e) hne
    · rw [if_neg hid]

theorem find?_update_self (e : String) (nu : NewUser) (hnue : nu.email = e) :
    ∀ (l : List UserDoc) (d : UserDoc),
      l.find? (fun x => x.fields.email == e) = some d →
      (∀ x ∈ l, x.docId = d.docId → x = d) →
      (l.map (fun x => if x.docId = d.docId then { x with fields := nu } else x)).find?
          (fun x => x.fields.email == e) = some { d with fields := nu } := by
  intro l
  induction l with
  | nil => intro d h; simp at h
  | cons a l ih =>
    intro d hfind huniq
    cases hp : (a.fields.email == e) with
    | true =>
      simp only [List.find?_cons, hp] at hfind
      have had : a = d := by simpa using hfind
      subst had
      rw [List.map_cons, if_pos rfl]
      have hpn : (nu.email == e) = true := by rw [hnue]; simp
      simp only [List.find?_cons, hpn]
    | false =>
      simp only [List.find?_cons, hp] at hfind
      have hpd : (d.fields.email == e) = true := by
        have := List.find?_some hfind
        simpa using this
      have hne : ¬a.docId = d.docId := by
        intro hid
        have had : a = d := huniq a (List.mem_cons_self a l) hid
        rw [had, hpd] at hp
        cases hp
      rw [List.map_cons, if_neg hne]
      simp only [List.find?_cons, hp]
      exact ih d hfind (fun x hx => huniq x (List.mem_cons_of_mem a hx))

theorem findByEmail_updateDoc_self {s : UserStore} {d : UserDoc} {nu : NewUser}
    (hWF : WFStore s) (hf : findByEmail s nu.email = some d) :
    findByEmail (updateDoc s d.docId nu) nu.email = some { d with fields := nu } := by
  have hmem := findByEmail_some_mem _ _ _ hf
  unfold findByEmail updateDoc
  exact find?_update_self nu.email nu rfl s.docs d hf
    (fun x hx hid => wf_docId_inj hWF hx hmem hid)

theorem findByEmail_createDoc_preserve {s : UserStore} {e : String} {d : UserDoc}
    (nu : NewUser) (h : findByEmail s e = some d) :
    findByEmail (createDoc s nu) e = some d := by
  simp only [findByEmail, createDoc] at h ⊢
  rw [List.find?_append, h]
  rfl

theorem findByEmail_createDoc_self {s : UserStore} {nu : NewUser}
    (h : findByEmail s nu.email = none) :
    findByEmail (createDoc s nu) nu.email = some { docId := s.nextId, fields := nu } := by
  simp only [findByEmail, createDoc] at h ⊢
  rw [List.find?_append, h]
  simp

theorem wf_updateDoc {s : UserStore} {d : UserDoc} {nu : NewUser}
    (hWF : WFStore s) (hf : findByEmail s nu.email = some d) :
    WFStore (updateDoc s d.docId nu) := by
  obtain ⟨hid, hem, hbound⟩ := hWF
  have hmem := findByEmail_some_mem _ _ _ hf
  have hde := findByEmail_some_email _ _ _ hf
  refine ⟨?_, ?_, ?_⟩
  · unfold updateDoc
    rw [List.map_map]
    have : ((fun x : UserDoc => x.docId) ∘
        fun x => if x.docId = d.docId then { x with fields := nu } else x) =
        fun x : UserDoc => x.docId := by
      funext x
      by_cases h : x.docId = d.docId <;> simp [h]
    rw [this]
    exact hid
  · unfold updateDoc
    rw [List.map_map]
    have : s.docs.map ((fun x : UserDoc => x.fields.email) ∘
        fun x => if x.docId = d.docId then { x with fields := nu } else x) =
        s.docs.map (fun x : UserDoc => x.fields.email) := by
      apply List.map_congr_left
      intro x hx
      by_cases hxd : x.docId = d.docId
      · have : x = d := List.inj_on_of_nodup_map hid hx hmem hxd
        subst this
        simp [hxd, hde]
      · simp [hxd]
    rw [this]
    exact hem
  · intro x hx
    simp only [updateDoc] at hx
    obtain ⟨y, hy, hxy⟩ := List.mem_map.mp hx
    have hxid : x.docId = y.docId := by
      by_cases hyd : y.docId = d.docId
      · rw [← hxy, if_pos hyd]
      · rw [← hxy, if_neg hyd]
    show x.docId < s.nextId
    rw [hxid]
    exact hbound y hy

theorem wf_createDoc {s : UserStore} {nu : NewUser}
    (hWF : WFStore s) (h : findByEmail s nu.email = none) :
    WFStore (createDoc s nu) := by
  obtain ⟨hid, hem, hbound⟩ := hWF
  refine ⟨?_, ?_, ?_⟩
  · unfold createDoc
    rw [List.map_append]
    simp only [List.map_cons, List.map_nil]
    rw [List.nodup_append]
    refine ⟨hid, List.nodup_singleton _, ?_⟩
    intro x hx
    simp only [List.mem_singleton]
    intro hxe
    obtain ⟨y, hy, hxy⟩ := List.mem_map.mp hx
    have := hbound y hy
    omega
  · unfold createDoc
    rw [List.map_append]
    simp only [List.map_cons, List.map_nil]
    rw [List.nodup_append]
    refine ⟨hem, List.nodup_singleton _, ?_⟩
    intro x hx
    simp only [List.mem_singleton]
    intro hxe
    obtain ⟨y, hy, hxy⟩ := List.mem_map.mp hx
    exact findByEmail_none_ne s nu.email h y hy (by rw [hxy, hxe])
  · intro x hx
    unfold createDoc at hx
    rcases List.mem_append.mp hx with hold | hnew
    · have := hbound x hold
      show x.docId < s.nextId + 1
      omega
    · have : x = { docId := s.nextId, fields := nu } := by simpa using hnew
      rw [this]
      show s.nextId < s.nextId + 1
      omega

theorem wf_emptyUserStore : WFStore emptyUserStore := by
  refine ⟨?_, ?_, ?_⟩ <;> simp [emptyUserStore]

/-! ## Inversion lemmas for the loop-body classification -/

theorem classify_fatal_inv (now : String) (S : UserStore) (u : SourceUser)
    (h : classify now S u = UStep.fatal) : u.email = none := by
  cases he : u.email with
  | none => rfl
  | some e =>
    obtain ⟨nu0, ht, _, _⟩ := transformUser_isOk now u e he
    unfold classify at h
    rw [ht] at h
    dsimp only at h
    by_cases hemp : nu0.orgIds.isEmpty = true
    · rw [if_pos hemp] at h
      exact UStep.noConfusion h
    · rw [if_neg hemp] at h
      cases hf : findByEmail S (withActive nu0).email <;> rw [hf] at h <;>
        exact UStep.noConfusion h

theorem classify_skip_inv (now : String) (S : UserStore) (u : SourceUser)
    (h : classify now S u = UStep.skip) :
    u.email ≠ none ∧ uResolvedOrgs u = [] := by
  cases he : u.email with
  | none =>
    rw [classify_fatal now S u he] at h
    exact UStep.noConfusion h
  | some e =>
    obtain ⟨nu0, ht, _, hor⟩ := transformUser_isOk now u e he
    unfold classify at h
    rw [ht] at h
    dsimp only at h
    by_cases hemp : nu0.orgIds.isEmpty = true
    · refine ⟨by simp, ?_⟩
      rw [← hor]
      exact List.isEmpty_iff.mp hemp
    · rw [if_neg hemp] at h
      cases hf : findByEmail S (withActive nu0).email <;> rw [hf] at h <;>
        exact UStep.noConfusion h

theorem classify_upd_inv (now : String) (S : UserStore) (u : SourceUser)
    (d : UserDoc) (nu : NewUser) (h : classify now S u = UStep.upd d nu) :
    findByEmail S nu.email = some d ∧ nuOf now u = some nu ∧
      u.email ≠ none ∧ uResolvedOrgs u ≠ [] ∧ uEmailKey u = some nu.email := by
  cases he : u.email with
  | none =>
    rw [classify_fatal now S u he] at h
    exact UStep.noConfusion h
  | some e =>
    obtain ⟨nu0, ht, hem, hor⟩ := transformUser_isOk now u e he
    unfold classify at h
    rw [ht] at h
    dsimp only at h
    by_cases hemp : nu0.orgIds.isEmpty = true
    · rw [if_pos hemp] at h
      exact UStep.noConfusion h
    · rw [if_neg hemp] at h
      cases hf : findByEmail S (withActive nu0).email with
      | none =>
        rw [hf] at h
        exact UStep.noConfusion h
      | some d2 =>
        rw [hf] at h
        have hd : d2 = d := by
          have := h
          injection this with h1 h2
        have hnu : withActive nu0 = nu := by
          injection h with h1 h2
        refine ⟨?_, ?_, by simp, ?_, ?_⟩
        · rw [← hnu, hf, hd]
        · unfold nuOf
          rw [ht, ← hnu]
          rfl
        · rw [← hor]
          intro hnil
          rw [hnil] at hemp
          exact hemp rfl
        · rw [← hnu, withActive_email, hem, uEmailKey, he]
          rfl

theorem classify_cre_inv (now : String) (S : UserStore) (u : SourceUser)
    (nu : NewUser) (h : classify now S u = UStep.cre nu) :
    findByEmail S nu.email = none ∧ nuOf now u = some nu ∧
      u.email ≠ none ∧ uResolvedOrgs u ≠ [] ∧ uEmailKey u = some nu.email := by
  cases he : u.email with
  | none =>
    rw [classify_fatal now S u he] at h
    exact UStep.noConfusion h
  | some e =>
    obtain ⟨nu0, ht, hem, hor⟩ := transformUser_isOk now u e he
    unfold classify at h
    rw [ht] at h
    dsimp only at h
    by_cases hemp : nu0.orgIds.isEmpty = true
    · rw [if_pos hemp] at h
      exact UStep.noConfusion h
    · rw [if_neg hemp] at h
      cases hf : findByEmail S (withActive nu0).email with
      | some d2 =>
        rw [hf] at h
        exact UStep.noConfusion h
      | none =>
        rw [hf] at h
        have hnu : withActive nu0 = nu := by
          injection h with h1
        refine ⟨?_, ?_, by simp, ?_, ?_⟩
        · rw [← hnu, hf]
        · unfold nuOf
          rw [ht, ← hnu]
          rfl
        · rw [← hor]
          intro hnil
          rw [hnil] at hemp
          exact hemp rfl
        · rw [← hnu, withActive_email, hem, uEmailKey, he]
          rfl

/-! ## Run-level store lemmas for the users migration -/

theorem runStore_nil (n : String) (S : UserStore) : runStore n [] S = S := rfl

theorem runStore_cons (n : String) (u : SourceUser) (us : List SourceUser)
    (S : UserStore) :
    runStore n (u :: us) S =
      match classify n S u with
      | UStep.fatal => S
      | UStep.skip => runStore n us S
      | UStep.upd d nu => runStore n us (updateDoc S d.docId nu)
      | UStep.cre nu => runStore n us (createDoc S nu) := rfl

theorem wf_runStore (n : String) :
    ∀ (us : List SourceUser) (S : UserStore), WFStore S → WFStore (runStore n us S) := by
  intro us
  induction us with
  | nil => intro S h; exact h
  | cons u us ih =>
    intro S h
    rw [runStore_cons]
    cases hc : classify n S u with
    | fatal => exact h
    | skip => exact ih S h
    | upd d nu =>
      obtain ⟨hf, -, -, -, -⟩ := classify_upd_inv n S u d nu hc
      exact ih _ (wf_updateDoc h hf)
    | cre nu =>
      obtain ⟨hf, -, -, -, -⟩ := classify_cre_inv n S u nu hc
      exact ih _ (wf_createDoc h hf)

theorem findByEmail_runStore_present (n : String) :
    ∀ (us : List SourceUser) (S : UserStore) (e : String) (d : UserDoc),
      WFStore S → findByEmail S e = some d →
      ∃ d2, findByEmail (runStore n us S) e = some d2 := by
  intro us
  induction us with
  | nil => intro S e d _ h; exact ⟨d, h⟩
  | cons u us ih =>
    intro S e d hWF h
    rw [runStore_cons]
    cases hc : classify n S u with
    | fatal => exact ⟨d, h⟩
    | skip => exact ih S e d hWF h
    | upd d2 nu =>
      obtain ⟨hf, -, -, -, -⟩ := classify_upd_inv n S u d2 nu hc
      by_cases he : e = nu.email
      · subst he
        exact ih _ nu.email _ (wf_updateDoc hWF hf) (findByEmail_updateDoc_self hWF hf)
      · exact ih _ e d (wf_updateDoc hWF hf)
          (by rw [findByEmail_updateDoc_other e hWF hf he]; exact h)
    | cre nu =>
      obtain ⟨hf, -, -, -, -⟩ := classify_cre_inv n S u nu hc
      exact ih _ e d (wf_createDoc hWF hf) (findByEmail_createDoc_preserve nu h)

theorem findByEmail_runStore_untouched (n : String) :
    ∀ (us : List SourceUser) (S : UserStore) (e : String) (d : UserDoc),
      WFStore S → findByEmail S e = some d → ¬writesEmail us e →
      findByEmail (runStore n us S) e = some d := by
  intro us
  induction us with
  | nil => intro S e d _ h _; exact h
  | cons u us ih =>
    intro S e d hWF h hw
    rw [runStore_cons]
    cases hc : classify n S u with
    | fatal => exact h
    | skip =>
      obtain ⟨hmail, -⟩ := classify_skip_inv n S u hc
      refine ih S e d hWF h ?_
      intro htail
      exact hw ⟨hmail, Or.inr htail⟩
    | upd d2 nu =>
      obtain ⟨hf, -, hmail, hres, hkey⟩ := classify_upd_inv n S u d2 nu hc
      have hne : e ≠ nu.email := by
        intro heq
        exact hw ⟨hmail, Or.inl ⟨hres, by rw [hkey, heq]⟩⟩
      refine ih _ e d (wf_updateDoc hWF hf) ?_ ?_
      · rw [findByEmail_updateDoc_other e hWF hf hne]
        exact h
      · intro htail
        exact hw ⟨hmail, Or.inr htail⟩
    | cre nu =>
      obtain ⟨hf, -, hmail, hres, hkey⟩ := classify_cre_inv n S u nu hc
      refine ih _ e d (wf_createDoc hWF hf) (findByEmail_createDoc_preserve nu h) ?_
      intro htail
      exact hw ⟨hmail, Or.inr htail⟩

/-! ## The frame relation between stores that differ in one duplicate record -/

theorem docsRel_ids (i : Nat) (e : String) :
    ∀ l1 l2, DocsRel i e l1 l2 →
      l1.map (fun d => d.docId) = l2.map (fun d => d.docId) := by
  intro l1 l2 h
  induction h with
  | nil => rfl
  | @cons a b tl1 tl2 hpair htail ih =>
    rw [List.map_cons, List.map_cons, ih]
    rcases hpair with heq | ⟨h1, h2, _, _⟩
    · rw [heq]
    · rw [h1, h2]

theorem docsRel_emails (i : Nat) (e : String) :
    ∀ l1 l2, DocsRel i e l1 l2 →
      l1.map (fun d => d.fields.email) = l2.map (fun d => d.fields.email) := by
  intro l1 l2 h
  induction h with
  | nil => rfl
  | @cons a b tl1 tl2 hpair htail ih =>
    rw [List.map_cons, List.map_cons, ih]
    rcases hpair with heq | ⟨_, _, h3, h4⟩
    · rw [heq]
    · rw [h3, h4]

theorem wf_of_equiv {i : Nat} {e : String} {S T : UserStore}
    (hWF : WFStore S) (h : EquivExceptDoc i e S T) : WFStore T := by
  obtain ⟨hnext, hrel⟩ := h
  obtain ⟨hid, hem, hbound⟩ := hWF
  refine ⟨?_, ?_, ?_⟩
  · rw [← docsRel_ids i e _ _ hrel]
    exact hid
  · rw [← docsRel_emails i e _ _ hrel]
    exact hem
  · intro d hd
    have hmem : d.docId ∈ T.docs.map (fun x => x.docId) := List.mem_map_of_mem _ hd
    rw [← docsRel_ids i e _ _ hrel] at hmem
    obtain ⟨y, hy, hxy⟩ := List.mem_map.mp hmem
    rw [← hnext, ← hxy]
    exact hbound y hy

theorem docsRel_find_ne (i : Nat) (e es : String) (hne : es ≠ e) :
    ∀ l1 l2, DocsRel i e l1 l2 →
      l1.find? (fun x => x.fields.email == es) =
        l2.find? (fun x => x.fields.email == es) := by
  intro l1 l2 h
  induction h with
  | nil => rfl
  | @cons a b tl1 tl2 hpair htail ih =>
    rcases hpair with heq | ⟨_, _, h3, h4⟩
    · rw [heq]
      cases hp : (b.fields.email == es) with
      | true => simp only [List.find?_cons, hp]
      | false =>
        simp only [List.find?_cons, hp]
        exact ih
    · have hpa : (a.fields.email == es) = false := by
        rw [h3]
        exact beq_eq_false_iff_ne.mpr (fun hee => hne (hee.symm))
      have hpb : (b.fields.email == es) = false := by
        rw [h4]
        exact beq_eq_false_iff_ne.mpr (fun hee => hne (hee.symm))
      simp only [List.find?_cons, hpa, hpb]
      exact ih

theorem docsRel_eq_of_no_e (i : Nat) (e : String) :
    ∀ l1 l2, DocsRel i e l1 l2 → (∀ x ∈ l1, x.fields.email ≠ e) → l1 = l2 := by
  intro l1 l2 h
  induction h with
  | nil => intro _; rfl
  | @cons a b tl1 tl2 hpair htail ih =>
    intro hno
    rcases hpair with heq | ⟨_, _, h3, _⟩
    · rw [heq, ih (fun x hx => hno x (List.mem_cons_of_mem a hx))]
    · exact absurd h3 (hno a (List.mem_cons_self a tl1))

theorem docsRel_eq_of_find_none (i : Nat) (e : String) :
    ∀ l1 l2, DocsRel i e l1 l2 →
      l1.find? (fun x => x.fields.email == e) = none → l1 = l2 := by
  intro l1 l2 h hf
  refine docsRel_eq_of_no_e i e l1 l2 h ?_
  intro x hx hxe
  have := List.find?_eq_none.mp hf x hx
  simp [hxe] at this

theorem docsRel_map_update (i : Nat) (e : String) (j : Nat) (nu : NewUser) :
    ∀ l1 l2, DocsRel i e l1 l2 →
      DocsRel i e (l1.map (fun x => if x.docId = j then { x with fields := nu } else x))
        (l2.map (fun x => if x.docId = j then { x with fields := nu } else x)) := by
  intro l1 l2 h
  induction h with
  | nil => exact List.Forall₂.nil
  | @cons a b tl1 tl2 hpair htail ih =>
    rw [List.map_cons, List.map_cons]
    refine List.Forall₂.cons ?_ ih
    rcases hpair with heq | ⟨h1, h2, h3, h4⟩
    · exact Or.inl (by rw [heq])
    · by_cases hj : a.docId = j
      · have hbj : b.docId = j := by rw [h2, ← h1, hj]
        rw [if_pos hj, if_pos hbj]
        exact Or.inl (by
          have hab : a.docId = b.docId := h1.trans h2.symm
          cases a
          cases b
          simp_all)
      · have hbj : ¬b.docId = j := by rw [h2, ← h1]; exact hj
        rw [if_neg hj, if_neg hbj]
        exact Or.inr ⟨h1, h2, h3, h4⟩

theorem docsRel_append_one (i : Nat) (e : String) (d : UserDoc) :
    ∀ l1 l2, DocsRel i e l1 l2 → DocsRel i e (l1 ++ [d]) (l2 ++ [d]) := by
  intro l1 l2 h
  induction h with
  | nil => exact List.Forall₂.cons (Or.inl rfl) List.Forall₂.nil
  | @cons a b tl1 tl2 hpair htail ih => exact List.Forall₂.cons hpair ih

theorem docsRel_collapse (i : Nat) (e : String) (nu : NewUser) (hnue : nu.email = e) :
    ∀ l1 l2, DocsRel i e l1 l2 →
      (l1.map (fun d => d.docId)).Nodup →
      (l1.map (fun d => d.fields.email)).Nodup →
      ∀ d1, l1.find? (fun x => x.fields.email == e) = some d1 →
        ∃ d2, l2.find? (fun x => x.fields.email == e) = some d2 ∧
          l1.map (fun x => if x.docId = d1.docId then { x with fields := nu } else x) =
            l2.map (fun x => if x.docId = d2.docId then { x with fields := nu } else x) := by
  intro l1 l2 h
  induction h with
  | nil => intro _ _ d1 hf; simp at hf
  | @cons a b tl1 tl2 hpair htail ih =>
    intro hids hems d1 hfind
    have hids2 : (tl1.map (fun d => d.docId)).Nodup := by
      rw [List.map_cons] at hids
      exact (List.nodup_cons.mp hids).2
    have hems2 : (tl1.map (fun d => d.fields.email)).Nodup := by
      rw [List.map_cons] at hems
      exact (List.nodup_cons.mp hems).2
    cases hpa : (a.fields.email == e) with
    | true =>
      simp only [List.find?_cons, hpa] at hfind
      have had : a = d1 := by simpa using hfind
      have hae : a.fields.email = e := by simpa using hpa
      have hnoe : ∀ x ∈ tl1, x.fields.email ≠ e := by
        intro x hx hxe
        rw [List.map_cons] at hems
        exact (List.nodup_cons.mp hems).1
          (by rw [hae, ← hxe]; exact List.mem_map_of_mem _ hx)
      have htleq : tl1 = tl2 := docsRel_eq_of_no_e i e tl1 tl2 htail hnoe
      rcases hpair with heq | ⟨h1, h2, _, h4⟩
      · refine ⟨d1, ?_, ?_⟩
        · have hpb : (b.fields.email == e) = true := by rw [← heq]; exact hpa
          simp only [List.find?_cons, hpb]
          rw [← heq, had]
        · rw [List.map_cons, List.map_cons, htleq, ← heq, ← had, if_pos rfl]
      · refine ⟨b, ?_, ?_⟩
        · have hpb : (b.fields.email == e) = true := by rw [h4]; simp
          simp only [List.find?_cons, hpb]
        · rw [List.map_cons, List.map_cons, htleq]
          have hd1i : d1.docId = i := by rw [← had]; exact h1
          have hhead : (if a.docId = d1.docId then { a with fields := nu } else a) =
              (if b.docId = b.docId then { b with fields := nu } else b) := by
            rw [if_pos (by rw [← had]), if_pos rfl]
            have hab : a.docId = b.docId := h1.trans h2.symm
            cases a
            cases b
            simp_all
          have htl : tl2.map
                (fun x => if x.docId = d1.docId then { x with fields := nu } else x) =
              tl2.map
                (fun x => if x.docId = b.docId then { x with fields := nu } else x) := by
            refine List.map_congr_left ?_
            intro x hx
            rw [hd1i, h2]
          rw [hhead, htl]
    | false =>
      simp only [List.find?_cons, hpa] at hfind
      rcases hpair with heq | ⟨_, _, h3, _⟩
      · obtain ⟨d2, hf2, hmaps⟩ := ih hids2 hems2 d1 hfind
        refine ⟨d2, ?_, ?_⟩
        · have hpb : (b.fields.email == e) = false := by rw [← heq]; exact hpa
          simp only [List.find?_cons, hpb]
          exact hf2
        · rw [List.map_cons, List.map_cons]
          have ha1 : ¬a.docId = d1.docId := by
            intro hid
            rw [List.map_cons] at hids
            exact (List.nodup_cons.mp hids).1
              (by rw [hid]
                  exact List.mem_map_of_mem _ (List.mem_of_find?_eq_some hfind))
          have ha2 : ¬b.docId = d2.docId := by
            rw [← heq]
            intro hid
            have hd2m : d2.docId ∈ tl2.map (fun d => d.docId) :=
              List.mem_map_of_mem _ (List.mem_of_find?_eq_some hf2)
            rw [← docsRel_ids i e tl1 tl2 htail] at hd2m
            rw [List.map_cons] at hids
            exact (List.nodup_cons.mp hids).1 (by rw [hid]; exact hd2m)
          rw [if_neg ha1, if_neg ha2, heq, hmaps]
      · rw [h3] at hpa
        simp at hpa

/-- The frame lemma: when some later user writes the shared email, running
the remaining users from two stores that differ only in the fields of that one
record produces identical stores. -/
theorem frame_runStore (n : String) :
    ∀ (us : List SourceUser) (S T : UserStore) (i : Nat) (e : String),
      WFStore S → EquivExceptDoc i e S T → writesEmail us e →
      runStore n us S = runStore n us T := by
  intro us
  induction us with
  | nil =>
    intro S T i e _ _ hw
    exact hw.elim
  | cons u us ih =>
    intro S T i e hWF hEq hw
    simp only [writesEmail] at hw
    obtain ⟨hmail, hOr⟩ := hw
    cases he : u.email with
    | none => exact absurd he hmail
    | some e0 =>
      obtain ⟨nu, hnu, hnue, hnuo⟩ := nuOf_some n u e0 he
      rw [runStore_cons, runStore_cons]
      by_cases hres : uResolvedOrgs u = []
      · rw [classify_skip n S u e0 he hres, classify_skip n T u e0 he hres]
        dsimp only
        have htail : writesEmail us e := by
          rcases hOr with ⟨hA, _⟩ | htail
          · exact absurd hres hA
          · exact htail
        exact ih S T i e hWF hEq htail
      · by_cases hkey : nu.email = e
        · cases hfS : findByEmail S nu.email with
          | none =>
            have hST : S = T := by
              obtain ⟨hnext, hrel⟩ := hEq
              have hdocs : S.docs = T.docs :=
                docsRel_eq_of_find_none i e S.docs T.docs hrel
                  (by rw [← hkey]; exact hfS)
              calc S = ⟨S.docs, S.nextId⟩ := rfl
                _ = ⟨T.docs, T.nextId⟩ := by rw [hdocs, hnext]
                _ = T := rfl
            rw [hST]
          | some dS =>
            obtain ⟨hnext, hrel⟩ := hEq
            have hfSe : S.docs.find? (fun x => x.fields.email == e) = some dS := by
              rw [← hkey]
              exact hfS
            obtain ⟨d2, hf2, hmaps⟩ :=
              docsRel_collapse i e nu hkey S.docs T.docs hrel hWF.1 hWF.2.1 dS hfSe
            have hfT : findByEmail T nu.email = some d2 := by
              show T.docs.find? (fun x => x.fields.email == nu.email) = some d2
              rw [hkey]
              exact hf2
            rw [classify_upd n S u e0 nu dS he hres hnu hfS]
            rw [classify_upd n T u e0 nu d2 he hres hnu hfT]
            dsimp only
            have hupd : updateDoc S dS.docId nu = updateDoc T d2.docId nu := by
              unfold updateDoc
              rw [hmaps, hnext]
            rw [hupd]
        · have hfind_eq : findByEmail S nu.email = findByEmail T nu.email :=
            docsRel_find_ne i e nu.email hkey S.docs T.docs hEq.2
          have htail : writesEmail us e := by
            rcases hOr with ⟨hA, hkeyeq⟩ | htail
            · have hkk : uEmailKey u = some (jsToLower e0) := by
                rw [uEmailKey, he]
                rfl
              rw [hkk] at hkeyeq
              exact absurd (hnue.trans (Option.some.inj hkeyeq)) hkey
            · exact htail
          cases hfS : findByEmail S nu.email with
          | some dS =>
            rw [classify_upd n S u e0 nu dS he hres hnu hfS]
            rw [classify_upd n T u e0 nu dS he hres hnu (by rw [← hfind_eq]; exact hfS)]
            dsimp only
            have hEq2 : EquivExceptDoc i e (updateDoc S dS.docId nu)
                (updateDoc T dS.docId nu) :=
              ⟨hEq.1, docsRel_map_update i e dS.docId nu S.docs T.docs hEq.2⟩
            exact ih _ _ i e (wf_updateDoc hWF hfS) hEq2 htail
          | none =>
            rw [classify_cre n S u e0 nu he hres hnu hfS]
            rw [classify_cre n T u e0 nu he hres hnu (by rw [← hfind_eq]; exact hfS)]
            dsimp only
            have hEq2 : EquivExceptDoc i e (createDoc S nu) (createDoc T nu) := by
              refine ⟨by show S.nextId + 1 = T.nextId + 1; rw [hEq.1], ?_⟩
              show DocsRel i e (S.docs ++ [{ docId := S.nextId, fields := nu }])
                (T.docs ++ [{ docId := T.nextId, fields := nu }])
              rw [hEq.1]
              exact docsRel_append_one i e _ S.docs T.docs hEq.2
            exact ih _ _ i e (wf_createDoc hWF hfS) hEq2 htail

/-! ## The second run of the users migration leaves the store unchanged -/

theorem docsRel_update_self (j : Nat) (e : String) (nu : NewUser) (hnue : nu.email = e) :
    ∀ (l : List UserDoc), (∀ x ∈ l, x.docId = j → x.fields.email = e) →
      DocsRel j e (l.map (fun x => if x.docId = j then { x with fields := nu } else x)) l := by
  intro l
  induction l with
  | nil => intro _; exact List.Forall₂.nil
  | cons a l ih =>
    intro hcond
    rw [List.map_cons]
    refine List.Forall₂.cons ?_ (ih (fun x hx => hcond x (List.mem_cons_of_mem a hx)))
    by_cases ha : a.docId = j
    · rw [if_pos ha]
      exact Or.inr ⟨ha, ha, hnue, hcond a (List.mem_cons_self a l) ha⟩
    · rw [if_neg ha]
      exact Or.inl rfl

theorem second_run_head (n1 n2 : String) (u : SourceUser) (us : List SourceUser)
    (e0 : String) (nu : NewUser) (S1 : UserStore) (d1 : UserDoc)
    (he : u.email = some e0) (hres : uResolvedOrgs u ≠ [])
    (hnu2 : nuOf n2 u = some nu)
    (hWF1 : WFStore S1) (hf1 : findByEmail S1 nu.email = some d1)
    (hd1 : d1.fields = nu)
    (IH : ∀ S, WFStore S → runStore n2 us (runStore n1 us S) = runStore n1 us S) :
    runStore n2 (u :: us) (runStore n1 us S1) = runStore n1 us S1 := by
  have hWFW : WFStore (runStore n1 us S1) := wf_runStore n1 us S1 hWF1
  obtain ⟨dW, hfW⟩ := findByEmail_runStore_present n1 us S1 nu.email d1 hWF1 hf1
  rw [runStore_cons]
  rw [classify_upd n2 _ u e0 nu dW he hres hnu2 hfW]
  dsimp only
  by_cases hw : writesEmail us nu.email
  · have hcond : ∀ x ∈ (runStore n1 us S1).docs, x.docId = dW.docId →
        x.fields.email = nu.email := by
      intro x hx hxd
      have hxW : x = dW := wf_docId_inj hWFW hx (findByEmail_some_mem _ _ _ hfW) hxd
      rw [hxW]
      exact findByEmail_some_email _ _ _ hfW
    have hEq : EquivExceptDoc dW.docId nu.email
        (updateDoc (runStore n1 us S1) dW.docId nu) (runStore n1 us S1) :=
      ⟨rfl, docsRel_update_self dW.docId nu.email nu rfl _ hcond⟩
    rw [frame_runStore n2 us _ _ dW.docId nu.email (wf_updateDoc hWFW hfW) hEq hw]
    exact IH S1 hWF1
  · have hfW1 : findByEmail (runStore n1 us S1) nu.email = some d1 :=
      findByEmail_runStore_untouched n1 us S1 nu.email d1 hWF1 hf1 hw
    have hdW : dW = d1 := by
      rw [hfW] at hfW1
      exact Option.some.inj hfW1
    rw [hdW, updateDoc_self hWFW (findByEmail_some_mem _ _ _ hfW1) hd1]
    exact IH S1 hWF1

theorem runStore_twice (n1 n2 : String) :
    ∀ (us : List SourceUser) (S : UserStore), WFStore S →
      (∀ u ∈ us, u.lastActive ≠ none) →
      runStore n2 us (runStore n1 us S) = runStore n1 us S := by
  intro us
  induction us with
  | nil => intro S _ _; rfl
  | cons u us ih =>
    intro S hWF hla
    have hlau : u.lastActive ≠ none := hla u (List.mem_cons_self u us)
    have hlas : ∀ v ∈ us, v.lastActive ≠ none := fun v hv => hla v (List.mem_cons_of_mem u hv)
    have IH : ∀ T, WFStore T → runStore n2 us (runStore n1 us T) = runStore n1 us T :=
      fun T hT => ih T hT hlas
    cases he : u.email with
    | none =>
      have hinner : runStore n1 (u :: us) S = S := by
        rw [runStore_cons, classify_fatal n1 S u he]
      rw [hinner, runStore_cons, classify_fatal n2 S u he]
    | some e0 =>
      by_cases hres : uResolvedOrgs u = []
      · have hinner : runStore n1 (u :: us) S = runStore n1 us S := by
          rw [runStore_cons, classify_skip n1 S u e0 he hres]
        rw [hinner, runStore_cons, classify_skip n2 _ u e0 he hres]
        dsimp only
        exact IH S hWF
      · obtain ⟨nu1, hnu1, hnue1, hnuo1⟩ := nuOf_some n1 u e0 he
        have hnu2 : nuOf n2 u = some nu1 := by
          rw [← nuOf_det n1 n2 u hlau]
          exact hnu1
        cases hf : findByEmail S nu1.email with
        | some d =>
          have hinner : runStore n1 (u :: us) S =
              runStore n1 us (updateDoc S d.docId nu1) := by
            rw [runStore_cons, classify_upd n1 S u e0 nu1 d he hres hnu1 hf]
          rw [hinner]
          exact second_run_head n1 n2 u us e0 nu1 (updateDoc S d.docId nu1)
            { d with fields := nu1 } he hres hnu2 (wf_updateDoc hWF hf)
            (findByEmail_updateDoc_self hWF hf) rfl IH
        | none =>
          have hinner : runStore n1 (u :: us) S =
              runStore n1 us (createDoc S nu1) := by
            rw [runStore_cons, classify_cre n1 S u e0 nu1 he hres hnu1 hf]
          rw [hinner]
          exact second_run_head n1 n2 u us e0 nu1 (createDoc S nu1)
            { docId := S.nextId, fields := nu1 } he hres hnu2 (wf_createDoc hWF hf)
            (findByEmail_createDoc_self hf) rfl IH

/-! ## Bridging the full run to its store effect, and create-call tracking -/

theorem runUsersFrom_store (now : String) :
    ∀ (us : List SourceUser) (st : UsersRunState),
      (runUsersFrom now us st).1.store = runStore now us st.store := by
  intro us
  induction us with
  | nil => intro st; rfl
  | cons u us ih =>
    intro st
    cases hc : classify now st.store u with
    | fatal =>
      have hs : stepUser now st u = (st, true) := by
        unfold stepUser
        rw [hc]
      rw [runUsersFrom, hs, runStore_cons, hc]
    | skip =>
      have hs : stepUser now st u =
          ({ st with skippedCount := st.skippedCount + 1 }, false) := by
        unfold stepUser
        rw [hc]
      rw [runUsersFrom, hs, runStore_cons, hc]
      exact ih _
    | upd d nu =>
      have hs : stepUser now st u =
          ({ st with
              store := updateDoc st.store d.docId nu
              errorCount := st.errorCount + 1
              events := st.events ++ [UserEvent.updateCall d.docId nu] }, false) := by
        unfold stepUser
        rw [hc]
      rw [runUsersFrom, hs, runStore_cons, hc]
      exact ih _
    | cre nu =>
      have hs : stepUser now st u =
          ({ st with
              store := createDoc st.store nu
              migratedCount := st.migratedCount + 1
              events := st.events ++ [UserEvent.createCall nu] }, false) := by
        unfold stepUser
        rw [hc]
      rw [runUsersFrom, hs, runStore_cons, hc]
      exact ih _

theorem run1_ready (n : String) :
    ∀ (us : List SourceUser) (S : UserStore), WFStore S → ∀ e, writesEmail us e →
      ∃ d, findByEmail (runStore n us S) e = some d := by
  intro us
  induction us with
  | nil => intro S _ e hw; exact hw.elim
  | cons u us ih =>
    intro S hWF e hw
    simp only [writesEmail] at hw
    obtain ⟨hmail, hOr⟩ := hw
    cases he : u.email with
    | none => exact absurd he hmail
    | some e0 =>
      obtain ⟨nu1, hnu1, hnue1, hnuo1⟩ := nuOf_some n u e0 he
      have hkeyval : uEmailKey u = some nu1.email := by
        rw [uEmailKey, he]
        show some (jsToLower e0) = some nu1.email
        rw [hnue1]
      by_cases hres : uResolvedOrgs u = []
      · rw [runStore_cons, classify_skip n S u e0 he hres]
        dsimp only
        rcases hOr with ⟨hA, _⟩ | htail
        · exact absurd hres hA
        · exact ih S hWF e htail
      · cases hf : findByEmail S nu1.email with
        | some d =>
          rw [runStore_cons, classify_upd n S u e0 nu1 d he hres hnu1 hf]
          dsimp only
          rcases hOr with ⟨-, hkeyeq⟩ | htail
          · have hee : e = nu1.email := by
              rw [hkeyval] at hkeyeq
              exact (Option.some.inj hkeyeq).symm
            subst hee
            exact findByEmail_runStore_present n us _ nu1.email _ (wf_updateDoc hWF hf)
              (findByEmail_updateDoc_self hWF hf)
          · exact ih _ (wf_updateDoc hWF hf) e htail
        | none =>
          rw [runStore_cons, classify_cre n S u e0 nu1 he hres hnu1 hf]
          dsimp only
          rcases hOr with ⟨-, hkeyeq⟩ | htail
          · have hee : e = nu1.email := by
              rw [hkeyval] at hkeyeq
              exact (Option.some.inj hkeyeq).symm
            subst hee
            exact findByEmail_runStore_present n us _ nu1.email _ (wf_createDoc hWF hf)
              (findByEmail_createDoc_self hf)
          · exact ih _ (wf_createDoc hWF hf) e htail

theorem runUsersFrom_no_creates (now : String) :
    ∀ (us : List SourceUser) (st : UsersRunState), WFStore st.store →
      (∀ e, writesEmail us e → ∃ d, findByEmail st.store e = some d) →
      (runUsersFrom now us st).1.events.filter isCreateEvent =
        st.events.filter isCreateEvent := by
  intro us
  induction us with
  | nil => intro st _ _; rfl
  | cons u us ih =>
    intro st hWF hready
    cases he : u.email with
    | none =>
      have hc := classify_fatal now st.store u he
      have hs : stepUser now st u = (st, true) := by
        unfold stepUser
        rw [hc]
      rw [runUsersFrom, hs]
    | some e0 =>
      obtain ⟨nu1, hnu1, hnue1, hnuo1⟩ := nuOf_some now u e0 he
      have hkeyval : uEmailKey u = some nu1.email := by
        rw [uEmailKey, he]
        show some (jsToLower e0) = some nu1.email
        rw [hnue1]
      by_cases hres : uResolvedOrgs u = []
      · have hc := classify_skip now st.store u e0 he hres
        have hs : stepUser now st u =
            ({ st with skippedCount := st.skippedCount + 1 }, false) := by
          unfold stepUser
          rw [hc]
        rw [runUsersFrom, hs]
        exact ih _ hWF (fun e hwe => hready e ⟨by simp [he], Or.inr hwe⟩)
      · have hwhead : writesEmail (u :: us) nu1.email :=
          ⟨by simp [he], Or.inl ⟨hres, hkeyval⟩⟩
        obtain ⟨d, hfd⟩ := hready nu1.email hwhead
        have hc := classify_upd now st.store u e0 nu1 d he hres hnu1 hfd
        have hs : stepUser now st u =
            ({ st with
                store := updateDoc st.store d.docId nu1
                errorCount := st.errorCount + 1
                events := st.events ++ [UserEvent.updateCall d.docId nu1] }, false) := by
          unfold stepUser
          rw [hc]
        rw [runUsersFrom, hs]
        have hready2 : ∀ e, writesEmail us e →
            ∃ d2, findByEmail (updateDoc st.store d.docId nu1) e = some d2 := by
          intro e hwe
          obtain ⟨d2, hd2⟩ := hready e ⟨by simp [he], Or.inr hwe⟩
          by_cases hee : e = nu1.email
          · subst hee
            exact ⟨_, findByEmail_updateDoc_self hWF hfd⟩
          · refine ⟨d2, ?_⟩
            rw [findByEmail_updateDoc_other e hWF hfd hee]
            exact hd2
        exact (ih _ (wf_updateDoc hWF hfd) hready2).trans
          (by rw [List.filter_append]; simp [isCreateEvent])

/-! ## The second run of the tag migration leaves the store unchanged -/

theorem tags_name_monotone (fr : List TagRef) (ids : List (Option String))
    (names : List String) (st : TagsRunState) (td : TagData) (x : String)
    (h : x ∈ st.store.tags.map (fun t => t.name)) :
    x ∈ (processTagData fr ids names st td).store.tags.map (fun t => t.name) := by
  unfold processTagData
  split
  · exact h
  · split
    · exact h
    · rw [sweepRefs_store_tags]
      simp only [createTagFromMongo, List.map_append]
      exact List.mem_append.mpr (Or.inl h)

theorem runTagsAux_name_present (fr : List TagRef) :
    ∀ (tds : List TagData) (st : TagsRunState) (td : TagData),
      td ∈ tds → td.userId ≠ none →
      td.tag ∈ ((tds.foldl (processTagData fr [] []) st).store.tags.map (fun t => t.name)) := by
  intro tds
  induction tds with
  | nil => intro st td h _; cases h
  | cons t0 rest ih =>
    intro st td hmem huser
    rw [List.foldl_cons]
    rcases List.mem_cons.mp hmem with heq | hrest
    · subst heq
      have hstep : td.tag ∈
          ((processTagData fr [] [] st td).store.tags.map (fun t => t.name)) := by
        unfold processTagData
        rw [if_neg (by simp)]
        cases hu : td.userId with
        | none => exact absurd hu huser
        | some uid =>
          simp only [hu]
          rw [sweepRefs_store_tags]
          simp only [createTagFromMongo, List.map_append]
          refine List.mem_append.mpr (Or.inr ?_)
          simp
      exact foldl_preserves _
        (fun s : TagsRunState => td.tag ∈ s.store.tags.map (fun t => t.name))
        (fun s a hs => tags_name_monotone fr [] [] s a td.tag hs) rest _ hstep
    · exact ih _ td hrest huser

theorem runTags_second_identity (fr : List TagRef) (ids : List (Option String))
    (names : List String) :
    ∀ (tds : List TagData) (st : TagsRunState),
      (∀ td ∈ tds, td.userId = none ∨ td.tag ∈ names) →
      ((tds.foldl (processTagData fr ids names) st).store = st.store ∧
        ∀ m c, TagEvent.createTag m c ∈ (tds.foldl (processTagData fr ids names) st).events →
          TagEvent.createTag m c ∈ st.events) := by
  intro tds
  induction tds with
  | nil => intro st _; exact ⟨rfl, fun m c h => h⟩
  | cons t0 rest ih =>
    intro st hcond
    have hstep : ∃ ev, processTagData fr ids names st t0 =
        { st with events := st.events ++ [ev] } ∧
        ∀ m c, ev ≠ TagEvent.createTag m c := by
      by_cases hdup : (some t0.mongoId ∈ ids) ∨ (t0.tag ∈ names)
      · refine ⟨TagEvent.skipDup t0.mongoId, ?_, ?_⟩
        · unfold processTagData
          rw [if_pos hdup]
        · intro m c h
          exact TagEvent.noConfusion h
      · rcases hcond t0 (List.mem_cons_self t0 rest) with huser | hname
        · refine ⟨TagEvent.recordError t0.mongoId, ?_, ?_⟩
          · unfold processTagData
            rw [if_neg hdup, huser]
          · intro m c h
            exact TagEvent.noConfusion h
        · exact absurd (Or.inr hname) hdup
    obtain ⟨ev, hev, hnc⟩ := hstep
    rw [List.foldl_cons, hev]
    obtain ⟨h1, h3⟩ := ih { st with events := st.events ++ [ev] }
      (fun td h => hcond td (List.mem_cons_of_mem t0 h))
    refine ⟨h1, ?_⟩
    intro m c hmc
    rcases List.mem_append.mp (h3 m c hmc) with hin | hone
    · exact hin
    · exact absurd (List.mem_singleton.mp hone).symm (hnc m c)

/-! ## Claim C6 : idempotence of a re-run -/

/-- Claim C6 as stated is false at a concrete input: a source user without
a lastActive stamp gets presence.lastSeen from the run clock (users.js:111),
so a second run of the full migration at a later clock rewrites that field
through the update branch, and the final target state differs from the
state after a single run. -/
theorem spec_C6_counterexample :
    (runUsers "T2" [uNoLastActive]
        (runUsers "T1" [uNoLastActive] emptyUserStore).1.store).1.store ≠
      (runUsers "T1" [uNoLastActive] emptyUserStore).1.store := by
  decide

/-- Claim C6, amended: provided every source user carries a lastActive
stamp (so the transform does not read the clock), running the migration a
second time over the same source data and the target produced by the first
run from an empty target yields the same final target state, issues no user
create call, leaves the tag store unchanged, and creates no tag - every
first-run record is re-classified as a duplicate (users are updated by the
email match, tags are skipped by the identifier-or-name match). -/
theorem spec_C6_idempotent_second_run (n1 n2 : String) (users : List SourceUser)
    (tds : List TagData) (tagRefs : List TagRef) (props : List PropertyDoc)
    (hla : ∀ u ∈ users, u.lastActive ≠ none) :
    ((runUsers n2 users (runUsers n1 users emptyUserStore).1.store).1.store =
        (runUsers n1 users emptyUserStore).1.store) ∧
    ((runUsers n2 users (runUsers n1 users emptyUserStore).1.store).1.events.filter
        isCreateEvent = []) ∧
    ((runTags tds tagRefs (runTags tds tagRefs (emptyTagStore props)).store).store =
        (runTags tds tagRefs (emptyTagStore props)).store) ∧
    (∀ m c, TagEvent.createTag m c ∈
        (runTags tds tagRefs (runTags tds tagRefs (emptyTagStore props)).store).events →
      False) := by
  have hbr1 : (runUsers n1 users emptyUserStore).1.store =
      runStore n1 users emptyUserStore :=
    runUsersFrom_store n1 users _
  have hWF1 : WFStore (runUsers n1 users emptyUserStore).1.store := by
    rw [hbr1]
    exact wf_runStore n1 users emptyUserStore wf_emptyUserStore
  have hready1 : ∀ e, writesEmail users e →
      ∃ d, findByEmail (runUsers n1 users emptyUserStore).1.store e = some d := by
    intro e hw
    rw [hbr1]
    exact run1_ready n1 users emptyUserStore wf_emptyUserStore e hw
  refine ⟨?_, ?_, ?_, ?_⟩
  · have hbr2 : (runUsers n2 users (runUsers n1 users emptyUserStore).1.store).1.store =
        runStore n2 users (runUsers n1 users emptyUserStore).1.store :=
      runUsersFrom_store n2 users _
    rw [hbr2, hbr1]
    exact runStore_twice n1 n2 users emptyUserStore wf_emptyUserStore hla
  · exact runUsersFrom_no_creates n2 users _ hWF1 hready1
  · have hcond : ∀ td ∈ tds, td.userId = none ∨
        td.tag ∈ ((runTags tds tagRefs (emptyTagStore props)).store.tags.map
          (fun t => t.name)) := by
      intro td hmem
      cases hu : td.userId with
      | none => exact Or.inl rfl
      | some uid =>
        refine Or.inr ?_
        exact runTagsAux_name_present (filterPropertyRefs tagRefs) tds
          { store := emptyTagStore props, createdTags := [], events := [] } td hmem
          (by rw [hu]; exact Option.noConfusion)
    exact (runTags_second_identity (filterPropertyRefs tagRefs)
      ((runTags tds tagRefs (emptyTagStore props)).store.tags.map (fun t => t.idField))
      ((runTags tds tagRefs (emptyTagStore props)).store.tags.map (fun t => t.name))
      tds
      { store := (runTags tds tagRefs (emptyTagStore props)).store, createdTags := [],
        events := [] } hcond).1
  · intro m c hmc
    have hcond : ∀ td ∈ tds, td.userId = none ∨
        td.tag ∈ ((runTags tds tagRefs (emptyTagStore props)).store.tags.map
          (fun t => t.name)) := by
      intro td hmem
      cases hu : td.userId with
      | none => exact Or.inl rfl
      | some uid =>
        refine Or.inr ?_
        exact runTagsAux_name_present (filterPropertyRefs tagRefs) tds
          { store := emptyTagStore props, createdTags := [], events := [] } td hmem
          (by rw [hu]; exact Option.noConfusion)
    have hrt : runTags tds tagRefs (runTags tds tagRefs (emptyTagStore props)).store =
        tds.foldl (processTagData (filterPropertyRefs tagRefs)
          ((runTags tds tagRefs (emptyTagStore props)).store.tags.map (fun t => t.idField))
          ((runTags tds tagRefs (emptyTagStore props)).store.tags.map (fun t => t.name)))
          { store := (runTags tds tagRefs (emptyTagStore props)).store, createdTags := [],
            events := [] } := rfl
    rw [hrt] at hmc
    have hmem2 := (runTags_second_identity (filterPropertyRefs tagRefs)
      ((runTags tds tagRefs (emptyTagStore props)).store.tags.map (fun t => t.idField))
      ((runTags tds tagRefs (emptyTagStore props)).store.tags.map (fun t => t.name))
      tds
      { store := (runTags tds tagRefs (emptyTagStore props)).store, createdTags := [],
        events := [] } hcond).2 m c hmc
    cases hmem2

/-- Witness for the amended C6 theorem at the concrete fixture data. -/
theorem spec_C6_idempotent_second_run_witness :
    ((runUsers "T2" [uGood] (runUsers "T1" [uGood] emptyUserStore).1.store).1.store =
        (runUsers "T1" [uGood] emptyUserStore).1.store) ∧
    ((runUsers "T2" [uGood] (runUsers "T1" [uGood] emptyUserStore).1.store).1.events.filter
        isCreateEvent = []) ∧
    ((runTags [tdA] [refA] (runTags [tdA] [refA] (emptyTagStore propsP)).store).store =
        (runTags [tdA] [refA] (emptyTagStore propsP)).store) ∧
    (TagEvent.createTag "ta" 0 ∈
        (runTags [tdA] [refA] (runTags [tdA] [refA] (emptyTagStore propsP)).store).events →
      False) :=
  ⟨(spec_C6_idempotent_second_run "T1" "T2" [uGood] [tdA] [refA] propsP (by decide)).1,
   (spec_C6_idempotent_second_run "T1" "T2" [uGood] [tdA] [refA] propsP (by decide)).2.1,
   (spec_C6_idempotent_second_run "T1" "T2" [uGood] [tdA] [refA] propsP (by decide)).2.2.1,
   (spec_C6_idempotent_second_run "T1" "T2" [uGood] [tdA] [refA] propsP (by decide)).2.2.2
     "ta" 0⟩

end MergeConvex

